import Mathlib

/-!
Verification development for the async SQLi scanner (src/app.py).

The Python source is shallowly embedded: pure helpers become Lean functions
over `List Char` / `String`, machine-level 32-bit arithmetic is `Nat` with
explicit masking mod 2^32, and the network is an oracle (`Env`) indexed by
the request sequence number, since the scanner never branches on anything
but the responses it got.  Python `float` thresholds (0.02, 0.90, 0.8) are
modelled as the exact rationals the literals denote; the claims checked
here never sit on a float rounding boundary.

Conventions: ASCII character predicates (`isalpha`, `\w`, `\s`) are embedded
with their ASCII meaning, which is what every string handled by the scanner
uses.  Python dicts are association lists that preserve insertion order and
update in place, exactly like `dict` does.
-/

set_option maxRecDepth 1000000
set_option maxHeartbeats 4000000

unseal Rat.mul Rat.inv Rat.add Rat.sub Rat.ofScientific

namespace WebSql

/-! ### Small evaluation helpers

`nf` forces a `Nat` to a literal before continuing.  It is semantically the
identity; it only keeps kernel evaluation of the sequential RNG loops below
from accumulating deep thunks. -/

def nf (n : Nat) (k : Nat → α) : α :=
  match n with
  | 0 => k 0
  | m+1 => k (m+1)

/-! ### Character and string helpers (ASCII semantics of the Python ones) -/

def lowerC (c : Char) : Char := c.toLower

/-- Case-insensitive equality of characters (ASCII, as in `re.I` over the
scanner's ASCII patterns). -/
def ciEqC (a b : Char) : Bool := lowerC a = lowerC b

/-- Does `cs` start with `pre` (case sensitive)? -/
def startsWithL : List Char → List Char → Bool
  | [], _ => true
  | _ :: _, [] => false
  | p :: ps, c :: cs => p = c && startsWithL ps cs

/-- Does `cs` start with `pre`, case-insensitively? -/
def startsWithCIL : List Char → List Char → Bool
  | [], _ => true
  | _ :: _, [] => false
  | p :: ps, c :: cs => ciEqC p c && startsWithCIL ps cs

/-- Python `needle in hay` (case sensitive substring test). -/
def containsSubL (needle : List Char) : List Char → Bool
  | [] => startsWithL needle []
  | c :: cs => startsWithL needle (c :: cs) || containsSubL needle cs

/-- Case-insensitive substring test. -/
def containsSubCIL (needle : List Char) : List Char → Bool
  | [] => startsWithCIL needle []
  | c :: cs => startsWithCIL needle (c :: cs) || containsSubCIL needle cs

/-- Python `hay.find(needle)`: index of the first occurrence, `none` if absent. -/
def findSubGo (needle : List Char) : Nat → List Char → Option Nat
  | i, [] => if startsWithL needle [] then some i else none
  | i, c :: cs => if startsWithL needle (c :: cs) then some i else findSubGo needle (i+1) cs

def findSubL (needle hay : List Char) : Option Nat := findSubGo needle 0 hay

/-- First index at which the predicate `m` holds of the suffix starting there:
`re.search` for the matchers below, which decide a match at one position. -/
def searchGo (m : List Char → Bool) : Nat → List Char → Option Nat
  | i, [] => if m [] then some i else none
  | i, c :: cs => if m (c :: cs) then some i else searchGo m (i+1) cs

def searchL (m : List Char → Bool) (hay : List Char) : Option Nat := searchGo m 0 hay

/-- Python `str.replace(pat, rep)` over char lists: non-overlapping, left to
right.  The skip counter consumes the rest of a match already emitted. -/
def replaceAllGo (pat rep : List Char) : Nat → List Char → List Char
  | _, [] => []
  | skip+1, _ :: cs => replaceAllGo pat rep skip cs
  | 0, c :: cs =>
    if pat ≠ [] && startsWithL pat (c :: cs) then
      rep ++ replaceAllGo pat rep (pat.length - 1) cs
    else
      c :: replaceAllGo pat rep 0 cs

def replaceAllL (pat rep s : List Char) : List Char := replaceAllGo pat rep 0 s

/-- Regex `\w` over ASCII: letters, digits, underscore. -/
def isWordC (c : Char) : Bool := c.isAlpha || c.isDigit || c = '_'

/-- Python `\s` (ASCII). -/
def isPySpace (c : Char) : Bool :=
  c = ' ' || c = '\t' || c = '\n' || c = '\x0d' || c = '\x0c' || c = '\x0b'

def natAbsDiff (a b : Nat) : Nat := max a b - min a b

/-! ### MT19937, as CPython's `random.Random(42)` runs it

`case_rand` in `mutate_payload` draws from `random.Random(42)`.  CPython
seeds the Mersenne Twister by `init_by_array([42])` and `random()` returns
`(a * 2^26 + b) / 2^53` with `a = genrand() >> 5`, `b = genrand() >> 6`; the
test `random() < 0.5` is exactly `genrand(first) < 2^31`.  All arithmetic is
`Nat` masked mod 2^32. -/

def u32 (x : Nat) : Nat := x % 4294967296

/-- `init_genrand` recurrence, building `mt[0..623]` (accumulator reversed). -/
def initGenrandGo : Nat → Nat → Nat → List Nat → List Nat
  | _, _, 0, accRev => accRev.reverse
  | prev, i, f+1, accRev =>
    nf (u32 (1812433253 * (Nat.xor prev (prev >>> 30)) + i)) fun v =>
      initGenrandGo v (i+1) f (v :: accRev)

def initGenrand (seed : Nat) : List Nat :=
  nf (u32 seed) fun s0 => initGenrandGo s0 1 623 [s0]

/-- First `init_by_array` pass with key `[42]` (so `key[j] + j = 42` always). -/
def ibaStep1 (cur prev i : Nat) : Nat :=
  let _ := i
  u32 (Nat.xor cur (u32 ((Nat.xor prev (prev >>> 30)) * 1664525)) + 42)

/-- Second `init_by_array` pass; `- i` is 32-bit wraparound subtraction. -/
def ibaStep2 (cur prev i : Nat) : Nat :=
  (Nat.xor cur (u32 ((Nat.xor prev (prev >>> 30)) * 1566083941)) + 4294967296 - i) % 4294967296

/-- One `init_by_array` pass over the state, kept as a zipper
`(i, mt[0..i-1] reversed, mt[i..623])`; on reaching the end of the array the
C code sets `mt[0] := mt[623]` and restarts at `i = 1`. -/
def ibaPass (f : Nat → Nat → Nat → Nat) : Nat → Nat → List Nat → List Nat → Nat × List Nat × List Nat
  | 0, i, rp, sf => (i, rp, sf)
  | k+1, i, rp, sf =>
    let cur := sf.headD 0
    let prev := rp.headD 0
    nf (f cur prev i) fun v =>
      let sf' := sf.tail
      if sf'.isEmpty then
        let full := (v :: rp).reverse
        ibaPass f k 1 [v] (full.drop 1)
      else
        ibaPass f k (i+1) (v :: rp) sf'

/-- The MT state right after `random.Random(42)`'s seeding
(`init_genrand(19650218)`, both `init_by_array` passes, `mt[0] = 0x80000000`). -/
def seededState : List Nat :=
  let l := initGenrand 19650218
  let s1 := ibaPass ibaStep1 624 1 [l.headD 0] (l.drop 1)
  let s2 := ibaPass ibaStep2 623 s1.1 s1.2.1 s1.2.2
  let full := s2.2.1.reverse ++ s2.2.2
  2147483648 :: full.tail

/-- Value of the twisted state at index `i` (`0 ≤ i < 624`).  The C twist
updates in place, so for `i ≥ 227` the `+397` read and for `i = 623` the
`+1` read see already-updated cells; the recursion mirrors that (its depth
is at most 3, and the fuel `i+1` always suffices). -/
def twistAtF : Nat → List Nat → Nat → Nat
  | 0, _, _ => 0
  | f+1, old, i =>
    let cur := old.getD i 0
    let nxt := if i = 623 then twistAtF f old 0 else old.getD (i+1) 0
    let far := if i + 397 ≤ 623 then old.getD (i+397) 0 else twistAtF f old (i - 227)
    let y := (cur &&& 2147483648) + (nxt &&& 2147483647)
    Nat.xor (Nat.xor far (y >>> 1)) (if y % 2 = 1 then 2567483615 else 0)

def twistAt (old : List Nat) (i : Nat) : Nat := twistAtF (i+1) old i

/-- MT output tempering. -/
def temper (y0 : Nat) : Nat :=
  let y1 := Nat.xor y0 (y0 >>> 11)
  let y2 := Nat.xor y1 ((y1 <<< 7) &&& 2636928640)
  let y3 := Nat.xor y2 ((y2 <<< 15) &&& 4022730752)
  Nat.xor y3 (y3 >>> 18)

/-- State after `t+1` twists (the generator twists before its first output). -/
def mtState : Nat → List Nat
  | 0 => seededState
  | t+1 => (List.range 624).map (twistAt (mtState t))

/-- The `k`-th 32-bit output of `random.Random(42)`'s generator. -/
def genrand (k : Nat) : Nat :=
  temper ((mtState (k / 624 + 1)).getD (k % 624) 0)

/-- The `k`-th output, given the (already twisted) first block `st`; falls
back to the general generator past the first block.  Used so one forced
copy of the first block serves a whole `case_rand` call. -/
def genrandFrom (st : List Nat) (k : Nat) : Nat :=
  if k < 624 then temper (st.getD k 0) else genrand k

/-- Decision `random.random() < 0.5` for the `i`-th `random()` call: each call
eats two 32-bit outputs and its value is below one half iff the first of the
two is below `2^31`. -/
def pyCoinFrom (st : List Nat) (i : Nat) : Bool :=
  genrandFrom st (2 * i) < 2147483648

/-! ### `mutate_payload` (src/app.py lines 63-169) -/

def mutateKeywords : List String := ["UNION", "SELECT", "FROM", "WHERE", "AND", "OR"]

/-- `re.sub(rf"(?i)\b{kw}\b", repl, s)`: scan left to right; a match needs a
non-word (or absent) character on each side, the keyword compared
case-insensitively; `repl` receives the matched text.  The skip counter
consumes the tail of a match already emitted, tracking the word-ness of the
last consumed character for the following boundary. -/
def reSubKwGo (kw : List Char) (repl : List Char → List Char) :
    Nat → Bool → List Char → List Char
  | _, _, [] => []
  | skip+1, _, c :: cs => reSubKwGo kw repl skip (isWordC c) cs
  | 0, prevWord, c :: cs =>
    if !prevWord && kw ≠ [] && startsWithCIL kw (c :: cs)
        && (match (c :: cs).drop kw.length with
            | [] => true
            | c' :: _ => !isWordC c') then
      repl ((c :: cs).take kw.length) ++ reSubKwGo kw repl (kw.length - 1) (isWordC c) cs
    else
      c :: reSubKwGo kw repl 0 (isWordC c) cs

def reSubKw (kw : String) (repl : List Char → List Char) (s : List Char) : List Char :=
  reSubKwGo kw.data repl 0 false s

/-- Replacement of `split_kw`: inline comment in the middle of the keyword. -/
def splitKwRepl (k : List Char) : List Char :=
  let mid := max 1 (k.length / 2)
  k.take mid ++ "/**/".data ++ k.drop mid

def split_kw (s : List Char) (kw : String) : List Char := reSubKw kw splitKwRepl s

/-- Replacement of `versioned_kw`: `/*!KW*/`. -/
def versionedKwRepl (k : List Char) : List Char := "/*!".data ++ k ++ "*/".data

def versioned_kw (s : List Char) (kw : String) : List Char := reSubKw kw versionedKwRepl s

/-- Replacement used by `kw_trail_comment`: `KW/*x*/`. -/
def kwTrailRepl (k : List Char) : List Char := k ++ "/*x*/".data

def kw_trail_comment (s : List Char) : List Char :=
  mutateKeywords.foldl (fun out kw => reSubKw kw kwTrailRepl out) s

/-- `case_alt`: upper-case the even positions, lower-case the odd ones. -/
def caseAltGo : Nat → List Char → List Char
  | _, [] => []
  | i, c :: cs => (if i % 2 = 0 then c.toUpper else c.toLower) :: caseAltGo (i+1) cs

def case_alt (s : List Char) : List Char := caseAltGo 0 s

/-- `case_rand` body: walk the characters, drawing one `random() < 0.5`
decision per alphabetic character from the seeded generator's first block. -/
def caseRandGo (blk : List Nat) : Nat → List Char → List Char
  | _, [] => []
  | i, c :: cs =>
    if c.isAlpha then
      (if pyCoinFrom blk i then c.toUpper else c.toLower) :: caseRandGo blk (i+1) cs
    else
      c :: caseRandGo blk i cs

/-- `case_rand`: a fresh `random.Random(42)` per call; alphabetic characters
are upper-cased when `random() < 0.5`, else lower-cased; others unchanged.
The draws walk the seeded generator's first twisted block. -/
def case_rand (s : List Char) : List Char :=
  caseRandGo ((List.range 624).map (twistAt seededState)) 0 s

/-- `whitespace_variant`: replace every space by `repl`. -/
def whitespace_variant (s : List Char) (repl : String) : List Char :=
  replaceAllL [' '] repl.data s

/-- `re.sub(r"--\s*", "-- - ", payload)`: after a `--` the whitespace run is
part of the match; the Bool is the "skipping matched whitespace" mode. -/
def dashSubGo : Bool → List Char → List Char
  | _, [] => []
  | _, '-' :: '-' :: cs' =>
    -- a dash is never whitespace, so skip mode cannot fire on this character
    "-- - ".data ++ dashSubGo true cs'
  | skipWs, c :: cs =>
    if skipWs && isPySpace c then dashSubGo true cs
    else c :: dashSubGo false cs

def dashSub (s : List Char) : List Char := dashSubGo false s

/-- The `add` helper: skip empty and already-seen variants (the `seen` set has
the same membership as the accumulated list). -/
def addMut (muts : List (List Char)) (x : List Char) : List (List Char) :=
  if x = [] ∨ x ∈ muts then muts else muts ++ [x]

/-- The sequence of `add` calls of `mutate_payload`, in source order. -/
def mutateVariants (p : List Char) : List (List Char) :=
  [p,
   mutateKeywords.foldl split_kw p]
  ++ mutateKeywords.map (split_kw p)
  ++ [mutateKeywords.foldl versioned_kw p]
  ++ mutateKeywords.map (versioned_kw p)
  ++ [whitespace_variant p "/**/",
      whitespace_variant p "\t",
      whitespace_variant p "\n"]
  ++ (if containsSubL "--".data p then
        [replaceAllL "--".data "-- ".data p,
         replaceAllL "--".data "--+".data p,
         dashSub p]
      else [])
  ++ [kw_trail_comment p,
      case_alt p,
      case_rand p,
      replaceAllL "union".data "un/**/ion".data (replaceAllL "UNION".data "UN/**/ION".data p)]

/-- `mutate_payload` over char lists: the `add` fold over the variants. -/
def mutatePayloadL (p : List Char) : List (List Char) :=
  (mutateVariants p).foldl addMut []

/-- `mutate_payload` at the `String` interface of the source. -/
def mutate_payload (p : String) : List String :=
  (mutatePayloadL p.data).map List.asString

/-- `mutate_payload(x)[0]` as the boolean phase uses it (the list is provably
nonempty there, so the default never fires). -/
def mutatePayloadHead (p : String) : String :=
  (mutate_payload p).headD ""

/-! ### The response comparator `differ` (src/app.py lines 412-422)

`difflib.SequenceMatcher(None, a, b).quick_ratio()` is `2*M/T` where `M`
sums, over the distinct characters, the smaller of the two occurrence
counts, and `T = len(a) + len(b)`.  The float thresholds `0.02` and `0.90`
are modelled by the exact rationals they denote. -/

def charMatches (a b : List Char) : Nat :=
  (a.dedup.map fun c => min (a.count c) (b.count c)).sum

def quick_ratio (a b : List Char) : ℚ :=
  2 * charMatches a b / ((a.length : ℚ) + b.length)

def differ (a b : String) : Bool :=
  if a.length = 0 || b.length = 0 then false
  else if (natAbsDiff a.length b.length : ℚ) >
      max (50 : ℚ) ((2 / 100) * ((max a.length b.length : Nat) : ℚ)) then true
  else quick_ratio a.data b.data < 90 / 100

/-! ### The `SQL_ERRORS` corpus (src/app.py lines 44-56)

Each compiled pattern becomes its source text (used verbatim in evidence
strings) plus a decidable match-at-the-start-of-this-suffix test; `search`
returns the first index at which the test holds, which is exactly
`re.search`'s match start for these patterns. -/

def isAlnumClassC (c : Char) : Bool := c.isAlpha || c.isDigit

/-- `SQLSTATE\[[A-Z0-9]+\]` with `re.I`: the literal prefix, then a nonempty
run of (case-folded) alphanumerics, then `]`. -/
def sqlstateMatchAt (cs : List Char) : Bool :=
  startsWithCIL "SQLSTATE[".data cs &&
    (let rest := cs.drop 9
     let run := rest.takeWhile isAlnumClassC
     run ≠ [] && (rest.drop run.length).headD ' ' = ']')

/-- Scanner for the `.*` of `near ".*": syntax error`: some newline-free
segment followed by the closing literal. -/
def nearScan : List Char → Bool
  | [] => false
  | c :: cs => startsWithCIL "\": syntax error".data (c :: cs) || (c ≠ '\n' && nearScan cs)

def nearMatchAt (cs : List Char) : Bool :=
  startsWithCIL "near \"".data cs && nearScan (cs.drop 6)

/-- `unterminated (?:quoted )?string` with `re.I`. -/
def untermMatchAt (cs : List Char) : Bool :=
  startsWithCIL "unterminated ".data cs &&
    (startsWithCIL "quoted string".data (cs.drop 13) ||
     startsWithCIL "string".data (cs.drop 13))

/-- The nine compiled patterns, in source order: pattern text (for evidence)
and its match-at test. -/
def sqlErrors : List (String × (List Char → Bool)) :=
  [("SQLSTATE\\[[A-Z0-9]+\\]", sqlstateMatchAt),
   ("near \\\".*\\\": syntax error", nearMatchAt),
   ("no such column", startsWithCIL "no such column".data),
   ("unrecognized token", startsWithCIL "unrecognized token".data),
   ("unterminated (?:quoted )?string", untermMatchAt),
   ("SELECTs to the left and right of UNION do not have the same number of result columns",
    startsWithCIL "SELECTs to the left and right of UNION do not have the same number of result columns".data),
   ("You have an error in your SQL syntax",
    startsWithCIL "You have an error in your SQL syntax".data),
   ("mysql_", startsWithCIL "mysql_".data),
   ("used SELECT statements have a different number of columns",
    startsWithCIL "used SELECT statements have a different number of columns".data)]

/-! ### URLs, targets, findings -/

/-- A parsed URL, as `urllib.parse.urlparse` splits one; identity is
componentwise, which matches string identity of the unparsed form for the
URLs the scanner builds. -/
structure Url where
  scheme : String
  netloc : String
  path : String
  query : String
  fragment : String
deriving DecidableEq, Repr

/-- `parsed._replace(query='')`. -/
def Url.dropQuery (u : Url) : Url := { u with query := "" }

/-- `parsed._replace(fragment='')`. -/
def Url.dropFragment (u : Url) : Url := { u with fragment := "" }

/-- A scan target: the dict `{"type": .., "url": .., "params": ..}` built by
`discover_targets` / `extract_links_forms`; `params` is insertion-ordered. -/
structure Target where
  ttype : String
  url : Url
  params : List (String × String)
deriving DecidableEq, Repr

/-- One result entry as `record` builds it; `columns` is the optional
`extra` field of union findings. -/
structure Finding where
  url : Url
  ttype : String
  param : String
  technique : String
  payload : String
  evidence : String
  risk : String
  score : ℚ
  fix_snippet : String
  columns : Option Nat
deriving DecidableEq, Repr

/-! ### Scoring and the finding store (src/app.py lines 342-410) -/

def lowerL (s : List Char) : List Char := s.map lowerC

def risk_for (tech : String) : String :=
  let tl := lowerL tech.data
  if containsSubL "union-confirmed".data tl then "Critical"
  else if containsSubL "error".data tl then "High"
  else if containsSubL "boolean".data tl then "Medium"
  else "Medium"

def fix_snippet (param : String) : String :=
  "// PHP PDO example\n" ++
  "$stmt = $pdo->prepare('SELECT * FROM table WHERE " ++ param ++ " = ?');\n" ++
  "$stmt->execute([$value]);\n" ++
  "$row = $stmt->fetch();\n"

def isDigitC (c : Char) : Bool := c.isDigit

def digitsToNat (ds : List Char) : Nat :=
  ds.foldl (fun n c => 10 * n + (c.toNat - 48)) 0

/-- `re.search(lit ++ "(\d+)", s)`: the first position where the literal is
followed by at least one digit; returns the greedy digit run's value. -/
def scanNumAfter (lit : List Char) : List Char → Option Nat
  | [] => none
  | c :: cs =>
    let here := c :: cs
    if startsWithL lit here && (here.drop lit.length).takeWhile isDigitC ≠ [] then
      some (digitsToNat ((here.drop lit.length).takeWhile isDigitC))
    else
      scanNumAfter lit cs

/-- Round half to even at the integer (Python `round` semantics on exact
rationals; the source rounds binary floats, which agrees except at an exact
decimal tie whose float sits off the tie — e.g. the source rounds the score
7.65 up because the float is a hair above it.  No claim here depends on a
score beyond its `[0, 10]` bounds, which hold either way). -/
def rhe (q : ℚ) : ℤ :=
  let f := ⌊q⌋
  let r := q - f
  if r < 1/2 then f
  else if 1/2 < r then f + 1
  else if f % 2 = 0 then f else f + 1

def round1 (q : ℚ) : ℚ := (rhe (10 * q) : ℚ) / 10

def score_for (tech evidence : String) : ℚ :=
  let t := lowerL tech.data
  let base : ℚ :=
    if containsSubL "union-confirmed".data t then 98/10
    else if containsSubL "error".data t then 86/10
    else if containsSubL "boolean".data t then 75/10
    else if containsSubL "time".data t then 7
    else 7
  let ev := evidence.data
  let base := match scanNumAfter "columns=".data ev with
    | some cols => base + min ((5 : ℚ)/10) ((cols : ℚ) * (5/100))
    | none => base
  let base := match scanNumAfter "diffs=".data ev with
    | some diffs => base + min ((3 : ℚ)/10) ((diffs : ℚ) * (5/100))
    | none => base
  let base := match scanNumAfter "prox=".data ev with
    | some prox => if prox < 200 then base + 2/10 else base
    | none => base
  max 0 (min 10 (round1 base))

/-- A pending `record(...)` call: everything the closure receives beyond the
per-target constants. -/
structure Cand where
  tech : String
  param : String
  payload : String
  evidence : String
  columns : Option Nat
deriving DecidableEq, Repr

/-- The dedup key: `(url, type, param, tech)` under noise grouping, with the
payload appended otherwise.  The two tuple shapes of the source are packed
injectively into one type via the `Option`. -/
def findingKey (noise : Bool) (url : Url) (ttype param tech payload : String) :
    Url × String × String × String × Option String :=
  (url, ttype, param, tech, if noise then none else some payload)

/-- The finding store: `_seen_findings` plus `results`. -/
structure Store where
  seen : List (Url × String × String × String × Option String)
  results : List Finding
deriving DecidableEq, Repr

def Store.empty : Store := ⟨[], []⟩

/-- The entry `record` builds for an accepted candidate. -/
def mkFinding (base_url : Url) (base_type : String) (c : Cand) : Finding :=
  { url := base_url, ttype := base_type, param := c.param, technique := c.tech,
    payload := c.payload, evidence := c.evidence, risk := risk_for c.tech,
    score := score_for c.tech c.evidence, fix_snippet := fix_snippet c.param,
    columns := c.columns }

/-- The dedup key read off a stored finding (the fields `record` put there). -/
def keyOfFinding (noise : Bool) (f : Finding) :
    Url × String × String × String × Option String :=
  findingKey noise f.url f.ttype f.param f.technique f.payload

/-- `record` (src/app.py lines 397-408): insert-if-absent on the dedup key;
an accepted entry is enriched with risk, score and fix snippet, and with
the `extra` columns field when given. -/
def record (noise : Bool) (base_url : Url) (base_type : String) (st : Store) (c : Cand) :
    Store :=
  let key := findingKey noise base_url base_type c.param c.tech c.payload
  if key ∈ st.seen then st
  else
    { seen := st.seen ++ [key],
      results := st.results ++ [mkFinding base_url base_type c] }

/-- Fold of `record` over a run of candidate calls. -/
def recordAll (noise : Bool) (base_url : Url) (base_type : String) (st : Store)
    (cs : List Cand) : Store :=
  cs.foldl (record noise base_url base_type) st

/-! ### `parse_qs` and `discover_targets` (src/app.py lines 315-333)

`urllib.parse.parse_qs` with default arguments: fields split on `&`, a field
without `=` or with an empty value is dropped (`keep_blank_values=False`),
names and values are `unquote_plus`-decoded; the dict keeps keys in first
occurrence order and `discover_targets` takes the first value per key.
Percent escapes are decoded bytewise here (the multi-byte UTF-8 regrouping
of the stdlib never matters to the scanner's ASCII query strings). -/

def hexVal (c : Char) : Nat :=
  if c.isDigit then c.toNat - 48
  else if 'a' ≤ c && c ≤ 'f' then c.toNat - 87
  else if 'A' ≤ c && c ≤ 'F' then c.toNat - 55
  else 0

def isHexC (c : Char) : Bool :=
  c.isDigit || ('a' ≤ c && c ≤ 'f') || ('A' ≤ c && c ≤ 'F')

def unquotePlusL : List Char → List Char
  | [] => []
  | '+' :: cs => ' ' :: unquotePlusL cs
  | '%' :: a :: b :: cs =>
    if isHexC a && isHexC b then Char.ofNat (16 * hexVal a + hexVal b) :: unquotePlusL cs
    else '%' :: unquotePlusL (a :: b :: cs)
  | c :: cs => c :: unquotePlusL cs

/-- Python `s.split('=', 1)`: the part before the first `=` and the rest. -/
def splitFirstAt (sep : Char) : List Char → Option (List Char × List Char)
  | [] => none
  | c :: cs =>
    if c = sep then some ([], cs)
    else (splitFirstAt sep cs).map fun p => (c :: p.1, p.2)

/-- `urllib.parse.parse_qsl(qs)` with default arguments. -/
def parseQsl (qs : String) : List (String × String) :=
  (qs.data.splitOn '&').filterMap fun field =>
    if field = [] then none
    else
      match splitFirstAt '=' field with
      | none => none
      | some (n, v) =>
        if v = [] then none
        else some ((unquotePlusL n).asString, (unquotePlusL v).asString)

/-- Keep the first pair per key, in first-occurrence key order. -/
def firstPerKeyGo : List String → List (String × String) → List (String × String)
  | _, [] => []
  | seen, (k, v) :: rest =>
    if k ∈ seen then firstPerKeyGo seen rest
    else (k, v) :: firstPerKeyGo (k :: seen) rest

/-- `{k: v[0] for k, v in parse_qs(qs).items()}`. -/
def parseQsFirst (qs : String) : List (String × String) :=
  firstPerKeyGo [] (parseQsl qs)

/-- Code-point comparison of strings, as Python compares `str`. -/
def strLtB (a b : String) : Bool := decide (a < b)

def pairLeB (x y : String × String) : Bool :=
  strLtB x.1 y.1 || (x.1 = y.1 && (strLtB x.2 y.2 || x.2 = y.2))

def insertPair (x : String × String) : List (String × String) → List (String × String)
  | [] => [x]
  | y :: ys => if pairLeB x y then x :: y :: ys else y :: insertPair x ys

/-- `sorted(params.items())`. -/
def sortPairs (l : List (String × String)) : List (String × String) :=
  l.foldr insertPair []

/-- The dedup key of `discover_targets`: `(type, url, sorted items)`. -/
def targetKey (t : Target) : String × Url × List (String × String) :=
  (t.ttype, t.url, sortPairs t.params)

def dedupTargetsGo : List (String × Url × List (String × String)) → List Target → List Target
  | _, [] => []
  | seen, t :: ts =>
    if targetKey t ∈ seen then dedupTargetsGo seen ts
    else t :: dedupTargetsGo (targetKey t :: seen) ts

/-- `discover_targets` (src/app.py lines 315-333): one GET target per visited
URL with a non-empty query (query stripped from the URL, `parse_qs` first
values as params), then the recorded form targets, deduplicated by
`(type, url, sorted params)` keeping first occurrences. -/
def discover_targets (visited : List Url) (form_targets : List Target) : List Target :=
  let targets := visited.filterMap fun u =>
    if u.query ≠ "" then
      some { ttype := "GET", url := u.dropQuery, params := parseQsFirst u.query }
    else none
  dedupTargetsGo [] (targets ++ form_targets)

/-! ### `fetch` with retries (src/app.py lines 219-244)

One HTTP attempt either raises (any transport failure, timeout, or the
deliberate raise on 429/5xx after the body was read) or yields a status and
body.  The attempts are an oracle indexed by the attempt number; the global
RNG's `uniform(0, 0.2)` jitter is likewise an oracle (that RNG is seeded
from process entropy, unlike `case_rand`'s fixed `Random(42)`). -/

inductive AttemptRes where
  | ok (status : Nat) (body : String)
  | exn
deriving DecidableEq, Repr

/-- An attempt makes `fetch` retry iff it raised, or returned 429 or 5xx. -/
def retryable : AttemptRes → Bool
  | .exn => true
  | .ok st _ => st = 429 || (500 ≤ st && st < 600)

/-- What one `fetch` call did: the returned pair, how many requests it
issued, and the backoff delays slept between them, in order. -/
structure FetchOut where
  status : Option Nat
  body : String
  requests : Nat
  delays : List ℚ
deriving DecidableEq, Repr

/-- The retry loop from attempt `k` on; the fuel is `max_retries + 1 - k`
and never runs out on the calls `fetch` makes. -/
def fetchAuxF (att : Nat → AttemptRes) (jit : Nat → ℚ) (backoff : ℚ) (maxRetries : Nat) :
    Nat → Nat → FetchOut
  | 0, _ => ⟨none, "", 0, []⟩
  | f+1, k =>
    let doRetry : Unit → FetchOut := fun _ =>
      if maxRetries ≤ k then ⟨none, "", 1, []⟩
      else
        let rest := fetchAuxF att jit backoff maxRetries f (k+1)
        ⟨rest.status, rest.body, rest.requests + 1, (backoff * 2^k + jit k) :: rest.delays⟩
    match att k with
    | .exn => doRetry ()
    | .ok st body =>
      if st = 429 || (500 ≤ st && st < 600) then doRetry ()
      else ⟨some st, body, 1, []⟩

def fetch (att : Nat → AttemptRes) (jit : Nat → ℚ) (backoff : ℚ) (maxRetries : Nat) :
    FetchOut :=
  fetchAuxF att jit backoff maxRetries (maxRetries + 1) 0

/-- The backoff delays slept before attempts `k, k+1, …` (`n` of them):
`backoff_base * 2^j + uniform(0, 0.2)` before attempt `j+1`. -/
def delaysFrom (jit : Nat → ℚ) (backoff : ℚ) (k n : Nat) : List ℚ :=
  (List.range' k n).map fun j => backoff * 2 ^ j + jit j

/-! ### The injection engine `test_target` (src/app.py lines 335-575)

Each probing request goes through `fetch`; at this layer a request is one
oracle lookup `env i`, where `i` counts the requests the call has made so
far (the scanner never branches on anything but the response, and a server
may answer identical requests differently, so the oracle is indexed by
sequence number, not by request content).  `status`/`body` are what the
post-retry `fetch` returned; `elapsed` is the wall-clock duration the
time-based phase measures around its `await`.

`record` appends to the store and never touches the network, and no phase
branches on the store, so `test_target` is embedded as: run the phases
collecting their candidate `record` calls in chronological order, then fold
`record` over them.  This is observationally the source's interleaving. -/

structure ProbeRes where
  status : Option Nat
  body : String
  elapsed : ℚ
deriving Repr

def Env : Type := Nat → ProbeRes

/-- The detection-tuning configuration of a scanner instance, after the
constructor's coercions (`boolean_rounds` is already `max 1 _`). -/
structure ScanCfg where
  boolean_rounds : Nat
  union_max_columns : Nat
  noise_grouping : Bool
  time_based : Bool
  time_threshold : ℚ
  param_fuzz : Bool

def PAYLOADS_error : List String := ["'", "\"", "')", "\" )"]

def PAYLOADS_boolean_num_true : String := " AND 1=1 -- "

def PAYLOADS_boolean_num_false : String := " AND 1=2 -- "

def PAYLOADS_boolean_str_true : String := "' OR '1'='1' -- "

def PAYLOADS_boolean_str_false : String := "' OR '1'='2' -- "

def dedupStrGo : List String → List String → List String
  | _, [] => []
  | seen, s :: ss =>
    if s ∈ seen then dedupStrGo seen ss else s :: dedupStrGo (s :: seen) ss

/-- `_seed_values` (src/app.py lines 424-435). -/
def seedValues (cfg : ScanCfg) (orig : String) : List String :=
  if !cfg.param_fuzz then [orig]
  else dedupStrGo []
    [orig, "", "0", "1", "-1", "admin", (List.replicate 32 'A').asString, "'\"<>&", "null"]

def fmtStatus : Option Nat → String
  | none => "None"
  | some s => toString s

def padZeros (d : Nat) (s : String) : String :=
  (List.replicate (d - s.length) '0').asString ++ s

/-- Python `f"{q:.df}"` on the exact rational (same boundary caveat as
`round1`; these strings are evidence text only). -/
def fmtFixed (d : Nat) (q : ℚ) : String :=
  let scaled := rhe ((10^d : ℚ) * q)
  let sgn := if scaled < 0 then "-" else ""
  let n := scaled.natAbs
  sgn ++ toString (n / 10^d) ++ "." ++ padZeros d (toString (n % 10^d))

/-- Phase A, inner body: one injected request's body checked against every
`SQL_ERRORS` pattern; each hit is one `record("error-based", ...)` call with
the proximity evidence (src/app.py lines 447-456). -/
def errorCandsOfResponse (p mp : String) (st : Option Nat) (txt : String) : List Cand :=
  sqlErrors.filterMap fun pat =>
    (searchL pat.2 txt.data).map fun errIdx =>
      let snippet := mp.data.take 10
      let prox := (findSubL snippet txt.data).map fun pvIdx => natAbsDiff errIdx pvIdx
      { tech := "error-based", param := p, payload := mp,
        evidence := pat.1 ++ " | status=" ++ fmtStatus st ++ " | prox=" ++
          (match prox with | some k => toString k | none => "n/a"),
        columns := none }

/-- Phase A over the mutations of one base payload: one request each. -/
def errorPhaseMuts (env : Env) (p : String) : List String → Nat → Nat × List Cand
  | [], idx => (idx, [])
  | mp :: rest, idx =>
    let r := env idx
    let here := errorCandsOfResponse p mp r.status r.body
    let next := errorPhaseMuts env p rest (idx + 1)
    (next.1, here ++ next.2)

def errorPhasePays (env : Env) (p : String) : List String → Nat → Nat × List Cand
  | [], idx => (idx, [])
  | pay :: rest, idx =>
    let here := errorPhaseMuts env p (mutate_payload pay) idx
    let next := errorPhasePays env p rest here.1
    (next.1, here.2 ++ next.2)

def errorPhaseSeeds (env : Env) (p : String) : List String → Nat → Nat × List Cand
  | [], idx => (idx, [])
  | _seed :: rest, idx =>
    let here := errorPhasePays env p PAYLOADS_error idx
    let next := errorPhaseSeeds env p rest here.1
    (next.1, here.2 ++ next.2)

/-- Phase A — error-based (src/app.py lines 437-457). -/
def error_phase (cfg : ScanCfg) (env : Env) : List (String × String) → Nat → Nat × List Cand
  | [], idx => (idx, [])
  | (p, orig) :: rest, idx =>
    let here := errorPhaseSeeds env p (seedValues cfg orig) idx
    let next := error_phase cfg env rest here.1
    (next.1, here.2 ++ next.2)

/-- The round loop of one boolean context: each round fetches the true then
the false injection; returns (next index, differ count, similarity list). -/
def boolRounds (env : Env) : Nat → Nat → Nat × Nat × List ℚ
  | 0, idx => (idx, 0, [])
  | r+1, idx =>
    let t := env idx
    let f := env (idx + 1)
    let rest := boolRounds env r (idx + 2)
    (rest.1,
     (if differ t.body f.body then 1 else 0) + rest.2.1,
     quick_ratio t.body.data f.body.data :: rest.2.2)

/-- The number of rounds, among `rounds` started at request index `idx`, in
which `Differ(true_body, false_body)` holds (each round consumes the pair
`idx + 2i`, `idx + 2i + 1`). -/
def boolDiffCount (env : Env) : Nat → Nat → Nat
  | 0, _ => 0
  | r+1, idx =>
    (if differ (env idx).body (env (idx + 1)).body then 1 else 0) +
      boolDiffCount env r (idx + 2)

/-- One boolean context (numeric or string) for one param and seed
(src/app.py lines 464-502): accept iff `diffs >= max(2, (rounds+1)//2)`. -/
def boolContext (cfg : ScanCfg) (env : Env) (p tPay fPay : String) (idx : Nat) :
    Nat × List Cand :=
  let r := boolRounds env cfg.boolean_rounds idx
  let diffs := r.2.1
  let sims := r.2.2
  if max 2 ((cfg.boolean_rounds + 1) / 2) ≤ diffs then
    let simAvg : ℚ := if sims = [] then 0 else sims.sum / sims.length
    (r.1, [{ tech := "boolean-blind", param := p, payload := tPay ++ "/" ++ fPay,
             evidence := "rounds=" ++ toString cfg.boolean_rounds ++ " diffs=" ++
               toString diffs ++ " sim_avg=" ++ fmtFixed 3 simAvg,
             columns := none }])
  else (r.1, [])

def booleanPhaseSeeds (cfg : ScanCfg) (env : Env) (p : String) :
    List String → Nat → Nat × List Cand
  | [], idx => (idx, [])
  | _seed :: rest, idx =>
    let num := boolContext cfg env p
      (mutatePayloadHead PAYLOADS_boolean_num_true)
      (mutatePayloadHead PAYLOADS_boolean_num_false) idx
    let str := boolContext cfg env p
      (mutatePayloadHead PAYLOADS_boolean_str_true)
      (mutatePayloadHead PAYLOADS_boolean_str_false) num.1
    let next := booleanPhaseSeeds cfg env p rest str.1
    (next.1, num.2 ++ str.2 ++ next.2)

/-- Phase B — boolean-blind (src/app.py lines 459-503). -/
def boolean_phase (cfg : ScanCfg) (env : Env) : List (String × String) → Nat → Nat × List Cand
  | [], idx => (idx, [])
  | (p, orig) :: rest, idx =>
    let here := booleanPhaseSeeds cfg env p (seedValues cfg orig) idx
    let next := boolean_phase cfg env rest here.1
    (next.1, here.2 ++ next.2)

/-- Python `int()` truncation on a rational. -/
def pyInt (q : ℚ) : ℤ := if 0 ≤ q then ⌊q⌋ else -⌊-q⌋

/-- `time_payloads` (src/app.py lines 508-514). -/
def timePayloads (seconds : ℚ) : List String :=
  let sInt := (max 1 (pyInt seconds)).toNat
  [" AND SLEEP(" ++ toString sInt ++ ") -- ",
   "' OR SLEEP(" ++ toString sInt ++ ") -- "]

def mssqlPayloads (threshold : ℚ) : List String :=
  ["'; WAITFOR DELAY '0:0:" ++ toString (max 1 (pyInt threshold)).toNat ++ "';-- "]

/-- The timing loop over one param's payloads: the flag condition
`dt - t_base >= time_threshold * 0.8` reads only the measured durations,
never the response. -/
def timePhasePays (cfg : ScanCfg) (env : Env) (p : String) (tBase : ℚ) :
    List String → Nat → Nat × List Cand
  | [], idx => (idx, [])
  | pay :: rest, idx =>
    let r := env idx
    let dt := r.elapsed
    let here : List Cand :=
      if cfg.time_threshold * (8/10) ≤ dt - tBase then
        [{ tech := "time-based", param := p, payload := pay.trim,
           evidence := "delta=" ++ fmtFixed 2 dt ++ "s base=" ++ fmtFixed 2 tBase ++
             "s thr=" ++ fmtFixed 2 cfg.time_threshold ++ "s",
           columns := none }]
      else []
    let next := timePhasePays cfg env p tBase rest (idx + 1)
    (next.1, here ++ next.2)

def timePhaseParams (cfg : ScanCfg) (env : Env) : List (String × String) → Nat → Nat × List Cand
  | [], idx => (idx, [])
  | (p, _orig) :: rest, idx =>
    let base := env idx
    let here := timePhasePays cfg env p base.elapsed
      (timePayloads cfg.time_threshold ++ mssqlPayloads cfg.time_threshold) (idx + 1)
    let next := timePhaseParams cfg env rest here.1
    (next.1, here.2 ++ next.2)

/-- Phase C — time-based, opt-in (src/app.py lines 505-535). -/
def time_phase (cfg : ScanCfg) (env : Env) (params : List (String × String)) (idx : Nat) :
    Nat × List Cand :=
  if cfg.time_based then timePhaseParams cfg env params idx else (idx, [])

/-- `has_col_mismatch` (src/app.py lines 553-554). -/
def has_col_mismatch (s : String) : Bool :=
  containsSubCIL "number of result columns".data s.data ||
  containsSubCIL "different number of columns".data s.data

/-- The acceptance test of one column count `n`: the outer condition
`(txt_n and not mm(txt_n)) or (txt_s and not mm(txt_s))` and the inner
`not mm(txt_n) and not mm(txt_s)` of src/app.py lines 557-561. -/
def unionAcceptHere (txt_n txt_s : String) : Bool :=
  ((txt_n ≠ "" && !has_col_mismatch txt_n) || (txt_s ≠ "" && !has_col_mismatch txt_s))
  && (!has_col_mismatch txt_n && !has_col_mismatch txt_s)

/-- The column-count loop: two requests per `n` (numeric then string
context), stopping at the first accepted `n`. -/
def unionColSearch (env : Env) : Nat → Nat → Nat → Nat × Option Nat
  | _, 0, idx => (idx, none)
  | n, rem+1, idx =>
    let txt_n := (env idx).body
    let txt_s := (env (idx + 1)).body
    if unionAcceptHere txt_n txt_s then (idx + 2, some n)
    else unionColSearch env (n + 1) rem (idx + 2)

/-- The column-count acceptance rule as claim C4 words it ("the first n for
which neither response shows a column-count-mismatch pattern") — written
from the claim, NOT from the source, to be compared against
`unionColSearch`: it lacks the source's requirement that at least one of
the two responses is non-empty. -/
def claimUnionColCount (env : Env) : Nat → Nat → Nat → Option Nat
  | _, 0, _ => none
  | n, rem+1, idx =>
    if !has_col_mismatch (env idx).body && !has_col_mismatch (env (idx + 1)).body then
      some n
    else claimUnionColCount env (n + 1) rem (idx + 2)

def unionMark : String := "ZXUNIONZX"

/-- The confirmation payload: `NULL` columns with the quoted marker at index
`col_count // 2` (src/app.py lines 563-568). -/
def unionConfirmPayload (n : Nat) : String :=
  " UNION SELECT " ++
    String.intercalate "," ((List.replicate n "NULL").set (n / 2) "'ZXUNIONZX'") ++ " -- "

def unionPhaseParams (cfg : ScanCfg) (env : Env) (baseline : String) :
    List (String × String) → Nat → Nat × List Cand
  | [], idx => (idx, [])
  | (p, _orig) :: rest, idx =>
    let s := unionColSearch env 1 cfg.union_max_columns idx
    let here : Nat × List Cand :=
      match s.2 with
      | none => (s.1, [])
      | some n =>
        let union_text := (env s.1).body
        if union_text ≠ "" &&
            (containsSubL unionMark.data union_text.data || differ union_text baseline) then
          (s.1 + 1, [{ tech := "union-confirmed", param := p,
                       payload := (unionConfirmPayload n).trim,
                       evidence := "columns=" ++ toString n, columns := some n }])
        else (s.1 + 1, [])
    let next := unionPhaseParams cfg env baseline rest here.1
    (next.1, here.2 ++ next.2)

/-- Phase D — UNION-based (src/app.py lines 537-573). -/
def union_phase (cfg : ScanCfg) (env : Env) (baseline : String)
    (params : List (String × String)) (idx : Nat) : Nat × List Cand :=
  unionPhaseParams cfg env baseline params idx

/-- `test_target`: baseline fetch (request 0), the four phases in order, and
the `record` fold over their candidate calls. -/
def test_target (cfg : ScanCfg) (env : Env) (st : Store) (target : Target) : Store :=
  let baseline := (env 0).body
  let e := error_phase cfg env target.params 1
  let b := boolean_phase cfg env target.params e.1
  let t := time_phase cfg env target.params b.1
  let u := union_phase cfg env baseline target.params t.1
  recordAll cfg.noise_grouping target.url target.ttype st (e.2 ++ b.2 ++ t.2 ++ u.2)

/-- One scan's probing (`run`, src/app.py lines 577-584): the finding store
is shared across the targets; each target's `test_target` has its own
request stream.  The event loop serializes the `record` calls; their global
interleaving order does not affect the dedup invariants proved below. -/
def run_scan (cfg : ScanCfg) : Store → List (Env × Target) → Store
  | st, [] => st
  | st, (env, t) :: rest => run_scan cfg (test_target cfg env st t) rest

/-! ### The crawler (src/app.py lines 246-313)

The web is an oracle: fetching and HTML-parsing a URL yields `none` (empty
body, i.e. `if text:` fails — a fetch failure returns `""`) or the page's
anchors and forms.  An anchor carries its raw `href` text (for the
`javascript:`/`mailto:` prefix tests) and `urlparse(urljoin(base, href))`,
which the page model supplies since URL resolution is stdlib behaviour, not
scanner code; likewise a form's resolved action.  `robots.txt` interpretation
is the `canFetch` oracle (allow-all when no robots file was parsed).

`visited` keeps the depth at which each URL was dequeued alongside the URL;
the source's set is its projection to the URLs, and membership tests use
only that projection. -/

structure RawAnchor where
  href : String
  resolved : Url
deriving DecidableEq, Repr

structure RawForm where
  action : Option String
  methodAttr : Option String
  inputs : List (String × Option String)
  resolvedAction : Url
deriving DecidableEq, Repr

structure Page where
  anchors : List RawAnchor
  forms : List RawForm
deriving DecidableEq, Repr

structure CrawlCfg where
  seed : Url
  maxDepth : Nat
  respectRobots : Bool
  canFetch : Url → Bool
  page : Url → Option Page

structure CrawlState where
  visited : List (Url × Nat)
  toVisit : List (Url × Nat)
  formTargets : List Target
deriving Repr

def visitedHas (v : List (Url × Nat)) (u : Url) : Bool :=
  v.any fun x => x.1 = u

/-- Python `x or default` for an optional string attribute (`None` and `""`
are both falsy). -/
def pyOrStr : Option String → String → String
  | none, d => d
  | some s, d => if s = "" then d else s

/-- Python dict assignment: overwrite in place (keeping the key's position)
or append. -/
def dictSet : List (String × String) → String → String → List (String × String)
  | [], k, v => [(k, v)]
  | (k', v') :: rest, k, v =>
    if k' = k then (k, v) :: rest else (k', v') :: dictSet rest k v

/-- The `<a href>` pass of `extract_links_forms` (src/app.py lines 289-298):
skip `javascript:`/`mailto:`, keep only the seed's host, strip the fragment,
enqueue unvisited robots-allowed URLs at `depth+1`. -/
def extractAnchors (cfg : CrawlCfg) (depth : Nat) (st : CrawlState)
    (anchors : List RawAnchor) : CrawlState :=
  anchors.foldl (fun s a =>
    if a.href.startsWith "javascript:" || a.href.startsWith "mailto:" then s
    else if a.resolved.netloc = cfg.seed.netloc then
      let normalized := a.resolved.dropFragment
      if !visitedHas s.visited normalized &&
          (!cfg.respectRobots || cfg.canFetch normalized) then
        { s with toVisit := s.toVisit ++ [(normalized, depth + 1)] }
      else s
    else s) st

/-- The `<form>` pass (src/app.py lines 300-313): record the form target and
enqueue the action URL — note no host check here.  The model's `inputs`
already holds only the named `<input|textarea|select>` elements (`if name:`);
a falsy `value` becomes `"test"`, and a falsy `action` falls back to the
page URL itself (`urljoin(base, base) = base`). -/
def extractForms (cfg : CrawlCfg) (pageUrl : Url) (depth : Nat) (st : CrawlState)
    (forms : List RawForm) : CrawlState :=
  forms.foldl (fun s f =>
    let absolute := match f.action with
      | none => pageUrl
      | some a => if a = "" then pageUrl else f.resolvedAction
    let method := (pyOrStr f.methodAttr "get").toUpper
    let inputs := f.inputs.foldl (fun d nv => dictSet d nv.1 (pyOrStr nv.2 "test")) []
    let s1 := if !cfg.respectRobots || cfg.canFetch absolute then
        { s with formTargets := s.formTargets ++
            [{ ttype := method, url := absolute, params := inputs }] }
      else s
    if !visitedHas s1.visited absolute && (!cfg.respectRobots || cfg.canFetch absolute) then
      { s1 with toVisit := s1.toVisit ++ [(absolute, depth + 1)] }
    else s1) st

def extract_links_forms (cfg : CrawlCfg) (pageUrl : Url) (depth : Nat) (st : CrawlState)
    (pg : Page) : CrawlState :=
  extractForms cfg pageUrl depth (extractAnchors cfg depth st pg.anchors) pg.forms

/-- One iteration of the crawl loop (src/app.py lines 251-262). -/
def crawlStep (cfg : CrawlCfg) (st : CrawlState) : CrawlState :=
  match st.toVisit with
  | [] => st
  | (url, depth) :: rest =>
    let st := { st with toVisit := rest }
    if visitedHas st.visited url || cfg.maxDepth < depth then st
    else if cfg.respectRobots && !cfg.canFetch url then st
    else
      let st := { st with visited := st.visited ++ [(url, depth)] }
      match cfg.page url with
      | none => st
      | some pg => extract_links_forms cfg url depth st pg

/-- The crawl loop, fuel-bounded (the queue can outgrow any bound on an
adversarial web; every claim below holds for every fuel). -/
def crawlRun (cfg : CrawlCfg) : Nat → CrawlState → CrawlState
  | 0, st => st
  | n+1, st =>
    match st.toVisit with
    | [] => st
    | _ :: _ => crawlRun cfg n (crawlStep cfg st)

def initCrawlState (seed : Url) : CrawlState :=
  { visited := [], toVisit := [(seed, 0)], formTargets := [] }

def crawl (cfg : CrawlCfg) (fuel : Nat) : CrawlState :=
  crawlRun cfg fuel (initCrawlState cfg.seed)

/-! ### Concrete scenarios for the closed-form checks below -/

/-- A request stream whose every attempt raises. -/
def attFail : Nat → AttemptRes := fun _ => .exn

/-- A network on which every probing request has failed after retries:
status `none`, empty body. -/
def envFail : Env := fun _ => ⟨none, "", 0⟩

/-- Every probing request failed after retries, but each took two seconds
longer than the previous one (timeouts take wall-clock time). -/
def envFailTime : Env := fun i => ⟨none, "", 2 * (i : ℚ)⟩

/-- The scanner's default detection configuration
(`boolean_rounds=3, union_max_columns=6, noise_grouping, threshold 2.0`). -/
def cfgDefault : ScanCfg := ⟨3, 6, true, false, 2, false⟩

/-- The defaults with the opt-in time-based phase enabled. -/
def cfgTime : ScanCfg := ⟨3, 6, true, true, 2, false⟩

/-- Four boolean rounds, defaults otherwise. -/
def cfg2 : ScanCfg := ⟨4, 6, true, false, 2, false⟩

/-- A GET target with the single parameter `id`. -/
def tGet : Target := ⟨"GET", ⟨"http", "h", "/page", "", ""⟩, [("id", "1")]⟩

/-- A visited URL whose query string assigns only a blank value. -/
def uBlank : Url := ⟨"http", "h", "/", "id=", ""⟩

/-- A form target whose action URL carries a query string. -/
def tForm : Target := ⟨"POST", ⟨"http", "h", "/s", "x=1", ""⟩, [("q", "test")]⟩

/-- The network behind `tForm`: request 1 (the first injected error-phase
request) answers a MySQL error banner, every other early request a clean
stable page. -/
def envForm : Env := fun i =>
  if i = 1 then ⟨some 200, "You have an error in your SQL syntax", 1/10⟩
  else if i < 20 then ⟨some 200, "clean", 1/10⟩
  else ⟨none, "", 10⟩

/-- 100 `A`s: one of two bodies different enough for `differ` by length. -/
def strA : String := (List.replicate 100 'A').asString

def strB : String := (List.replicate 200 'B').asString

/-- Requests 1 and 3 answer `strB`, all others `strA`: of four boolean
round pairs starting at request 0, exactly the first two differ. -/
def env2 : Env := fun i => ⟨some 200, if i = 1 ∨ i = 3 then strB else strA, 0⟩

/-- The first request pair is empty-bodied, everything after is a stable
page: the union column search rejects count 1, accepts count 2. -/
def envU : Env := fun i => ⟨some 200, if i < 2 then "" else "stable page", 0⟩

/-- The crawl scenario: the seed page holds a single form whose action is
on another host. -/
def urlSeed : Url := ⟨"http", "h", "/", "", ""⟩

def urlEvil : Url := ⟨"http", "evil", "/x", "", ""⟩

def pageSeed : Page := ⟨[], [⟨some "http://evil/x", some "get", [], urlEvil⟩]⟩

def cfg1 : CrawlCfg :=
  ⟨urlSeed, 2, false, fun _ => true, fun u => if u = urlSeed then some pageSeed else none⟩

/-- The finding-store invariant: every stored finding's key is in the seen
set, and the stored keys are pairwise distinct. -/
def StoreInv (noise : Bool) (st : Store) : Prop :=
  (∀ f ∈ st.results, keyOfFinding noise f ∈ st.seen) ∧
  st.results.Pairwise fun f g => keyOfFinding noise f ≠ keyOfFinding noise g

/-- Acceptance test of column count `m` relative to a search that probed its
first count at request index `idx` with first count `n`: count `m` uses the
request pair `idx + 2*(m-n)`, `idx + 2*(m-n) + 1`. -/
def unionAcceptAt (env : Env) (idx n m : Nat) : Bool :=
  unionAcceptHere (env (idx + 2 * (m - n))).body (env (idx + 2 * (m - n) + 1)).body

/-! ## Lemmas -/

theorem nf_eq (n : Nat) (k : Nat → α) : nf n k = k n := by
  cases n <;> rfl


theorem score_for_nonneg (t e : String) : 0 ≤ score_for t e :=
  le_max_left 0 _

theorem score_for_le_ten (t e : String) : score_for t e ≤ 10 :=
  max_le (by norm_num) (min_le_left _ _)

theorem keyOfFinding_mkFinding (n : Bool) (u : Url) (t : String) (c : Cand) :
    keyOfFinding n (mkFinding u t c) = findingKey n u t c.param c.tech c.payload := rfl

theorem record_results_cases (n : Bool) (u : Url) (t : String) (st : Store) (c : Cand) :
    (record n u t st c).results = st.results ∨
    (record n u t st c).results = st.results ++ [mkFinding u t c] := by
  by_cases hk : findingKey n u t c.param c.tech c.payload ∈ st.seen
  · exact Or.inl (by simp [record, hk])
  · exact Or.inr (by simp [record, hk])

/-- Everything `recordAll` leaves in the store either was there or is the
entry of one of the candidates. -/
theorem recordAll_results_prop (P : Finding → Prop) (n : Bool) (u : Url) (t : String) :
    ∀ (cs : List Cand) (st : Store), (∀ f ∈ st.results, P f) →
      (∀ c ∈ cs, P (mkFinding u t c)) →
      ∀ f ∈ (recordAll n u t st cs).results, P f := by
  intro cs
  induction cs with
  | nil => intro st hst _ f hf; exact hst f hf
  | cons c cs ih =>
    intro st hst hc f hf
    refine ih (record n u t st c) ?_ (fun d hd => hc d (List.mem_cons_of_mem _ hd)) f hf
    intro g hg
    rcases record_results_cases n u t st c with h | h
    · exact hst g (h ▸ hg)
    · rw [h] at hg
      rcases List.mem_append.mp hg with h' | h'
      · exact hst g h'
      · rcases List.mem_singleton.mp h' with rfl
        exact hc c (List.mem_cons_self c cs)

theorem storeInv_empty (noise : Bool) : StoreInv noise Store.empty :=
  ⟨fun _ h => absurd h (List.not_mem_nil _), List.Pairwise.nil⟩

theorem record_inv (noise : Bool) (u : Url) (t : String) (st : Store) (c : Cand)
    (h : StoreInv noise st) : StoreInv noise (record noise u t st c) := by
  obtain ⟨hseen, hpair⟩ := h
  by_cases hk : findingKey noise u t c.param c.tech c.payload ∈ st.seen
  · have : record noise u t st c = st := by simp [record, hk]
    rw [this]; exact ⟨hseen, hpair⟩
  · have hrec : record noise u t st c =
        { seen := st.seen ++ [findingKey noise u t c.param c.tech c.payload],
          results := st.results ++ [mkFinding u t c] } := by simp [record, hk]
    rw [hrec]
    constructor
    · intro f hf
      rcases List.mem_append.mp hf with h' | h'
      · exact List.mem_append.mpr (Or.inl (hseen f h'))
      · rcases List.mem_singleton.mp h' with rfl
        exact List.mem_append.mpr (Or.inr (by simp [keyOfFinding_mkFinding]))
    · rw [List.pairwise_append]
      refine ⟨hpair, by simp, ?_⟩
      intro f hf g hg
      rcases List.mem_singleton.mp hg with rfl
      rw [keyOfFinding_mkFinding]
      intro heq
      exact hk (heq ▸ hseen f hf)

theorem recordAll_inv (noise : Bool) (u : Url) (t : String) :
    ∀ (cs : List Cand) (st : Store), StoreInv noise st →
      StoreInv noise (recordAll noise u t st cs) := by
  intro cs
  induction cs with
  | nil => intro st h; exact h
  | cons c cs ih => intro st h; exact ih (record noise u t st c) (record_inv noise u t st c h)

theorem test_target_inv (cfg : ScanCfg) (env : Env) (st : Store) (t : Target)
    (h : StoreInv cfg.noise_grouping st) :
    StoreInv cfg.noise_grouping (test_target cfg env st t) :=
  recordAll_inv _ _ _ _ _ h

theorem run_scan_inv (cfg : ScanCfg) :
    ∀ (runs : List (Env × Target)) (st : Store), StoreInv cfg.noise_grouping st →
      StoreInv cfg.noise_grouping (run_scan cfg st runs) := by
  intro runs
  induction runs with
  | nil => intro st h; exact h
  | cons r rest ih => intro st h; exact ih _ (test_target_inv cfg r.1 st r.2 h)

/-! Phase candidates: which `param` and `tech` each phase writes. -/

theorem errorCandsOfResponse_fields (p mp : String) (st : Option Nat) (txt : String) :
    ∀ c ∈ errorCandsOfResponse p mp st txt, c.param = p ∧ c.tech = "error-based" := by
  intro c hc
  rcases List.mem_filterMap.mp hc with ⟨pat, _, hmap⟩
  rcases Option.map_eq_some'.mp hmap with ⟨i, _, rfl⟩
  exact ⟨rfl, rfl⟩

theorem errorPhaseMuts_param (env : Env) (p : String) :
    ∀ (mps : List String) (idx : Nat), ∀ c ∈ (errorPhaseMuts env p mps idx).2, c.param = p := by
  intro mps
  induction mps with
  | nil => intro idx c hc; simp [errorPhaseMuts] at hc
  | cons mp rest ih =>
    intro idx c hc
    rcases List.mem_append.mp hc with h | h
    · exact (errorCandsOfResponse_fields p mp _ _ c h).1
    · exact ih (idx + 1) c h

theorem errorPhasePays_param (env : Env) (p : String) :
    ∀ (pays : List String) (idx : Nat), ∀ c ∈ (errorPhasePays env p pays idx).2, c.param = p := by
  intro pays
  induction pays with
  | nil => intro idx c hc; simp [errorPhasePays] at hc
  | cons pay rest ih =>
    intro idx c hc
    rcases List.mem_append.mp hc with h | h
    · exact errorPhaseMuts_param env p _ idx c h
    · exact ih _ c h

theorem errorPhaseSeeds_param (env : Env) (p : String) :
    ∀ (seeds : List String) (idx : Nat),
      ∀ c ∈ (errorPhaseSeeds env p seeds idx).2, c.param = p := by
  intro seeds
  induction seeds with
  | nil => intro idx c hc; simp [errorPhaseSeeds] at hc
  | cons s rest ih =>
    intro idx c hc
    rcases List.mem_append.mp hc with h | h
    · exact errorPhasePays_param env p _ idx c h
    · exact ih _ c h

theorem error_phase_param (cfg : ScanCfg) (env : Env) :
    ∀ (ps : List (String × String)) (idx : Nat),
      ∀ c ∈ (error_phase cfg env ps idx).2, c.param ∈ ps.map Prod.fst := by
  intro ps
  induction ps with
  | nil => intro idx c hc; simp [error_phase] at hc
  | cons pv rest ih =>
    intro idx c hc
    rcases List.mem_append.mp hc with h | h
    · simp [errorPhaseSeeds_param env pv.1 _ idx c h]
    · exact List.mem_cons_of_mem _ (ih _ c h)

theorem boolContext_fields (cfg : ScanCfg) (env : Env) (p tPay fPay : String) (idx : Nat) :
    ∀ c ∈ (boolContext cfg env p tPay fPay idx).2, c.param = p ∧ c.tech = "boolean-blind" := by
  intro c hc
  simp only [boolContext] at hc
  split at hc
  · rcases List.mem_singleton.mp hc with rfl; exact ⟨rfl, rfl⟩
  · simp at hc

theorem booleanPhaseSeeds_param (cfg : ScanCfg) (env : Env) (p : String) :
    ∀ (seeds : List String) (idx : Nat),
      ∀ c ∈ (booleanPhaseSeeds cfg env p seeds idx).2, c.param = p := by
  intro seeds
  induction seeds with
  | nil => intro idx c hc; simp [booleanPhaseSeeds] at hc
  | cons s rest ih =>
    intro idx c hc
    rcases List.mem_append.mp hc with h | h
    · rcases List.mem_append.mp h with h' | h'
      · exact (boolContext_fields cfg env p _ _ _ c h').1
      · exact (boolContext_fields cfg env p _ _ _ c h').1
    · exact ih _ c h

theorem boolean_phase_param (cfg : ScanCfg) (env : Env) :
    ∀ (ps : List (String × String)) (idx : Nat),
      ∀ c ∈ (boolean_phase cfg env ps idx).2, c.param ∈ ps.map Prod.fst := by
  intro ps
  induction ps with
  | nil => intro idx c hc; simp [boolean_phase] at hc
  | cons pv rest ih =>
    intro idx c hc
    rcases List.mem_append.mp hc with h | h
    · simp [booleanPhaseSeeds_param cfg env pv.1 _ idx c h]
    · exact List.mem_cons_of_mem _ (ih _ c h)

theorem timePhasePays_param (cfg : ScanCfg) (env : Env) (p : String) (tBase : ℚ) :
    ∀ (pays : List String) (idx : Nat),
      ∀ c ∈ (timePhasePays cfg env p tBase pays idx).2, c.param = p ∧ c.tech = "time-based" := by
  intro pays
  induction pays with
  | nil => intro idx c hc; simp [timePhasePays] at hc
  | cons pay rest ih =>
    intro idx c hc
    simp only [timePhasePays] at hc
    rcases List.mem_append.mp hc with h | h
    · by_cases hth : cfg.time_threshold * (8/10) ≤ (env idx).elapsed - tBase
      · rw [if_pos hth] at h
        rcases List.mem_singleton.mp h with rfl; exact ⟨rfl, rfl⟩
      · rw [if_neg hth] at h
        simp at h
    · exact ih _ c h

theorem timePhaseParams_param (cfg : ScanCfg) (env : Env) :
    ∀ (ps : List (String × String)) (idx : Nat),
      ∀ c ∈ (timePhaseParams cfg env ps idx).2, c.param ∈ ps.map Prod.fst := by
  intro ps
  induction ps with
  | nil => intro idx c hc; simp [timePhaseParams] at hc
  | cons pv rest ih =>
    intro idx c hc
    rcases List.mem_append.mp hc with h | h
    · simp [(timePhasePays_param cfg env pv.1 _ _ _ c h).1]
    · exact List.mem_cons_of_mem _ (ih _ c h)

theorem time_phase_param (cfg : ScanCfg) (env : Env) (ps : List (String × String)) (idx : Nat) :
    ∀ c ∈ (time_phase cfg env ps idx).2, c.param ∈ ps.map Prod.fst := by
  intro c hc
  by_cases ht : cfg.time_based
  · rw [time_phase, if_pos ht] at hc
    exact timePhaseParams_param cfg env ps idx c hc
  · rw [time_phase, if_neg ht] at hc
    simp at hc

theorem unionPhaseParams_param (cfg : ScanCfg) (env : Env) (baseline : String) :
    ∀ (ps : List (String × String)) (idx : Nat),
      ∀ c ∈ (unionPhaseParams cfg env baseline ps idx).2, c.param ∈ ps.map Prod.fst := by
  intro ps
  induction ps with
  | nil => intro idx c hc; simp [unionPhaseParams] at hc
  | cons pv rest ih =>
    intro idx c hc
    simp only [unionPhaseParams] at hc
    rcases List.mem_append.mp hc with h | h
    · rcases hsearch : (unionColSearch env 1 cfg.union_max_columns idx).2 with _ | n
      · rw [hsearch] at h; simp at h
      · rw [hsearch] at h
        dsimp only at h
        split at h
        · rcases List.mem_singleton.mp h with rfl; simp
        · simp at h
    · exact List.mem_cons_of_mem _ (ih _ c h)

/-! Comparator lemmas. -/

theorem strLength_eq_zero_iff (s : String) : s.length = 0 ↔ s = "" := by
  cases s with
  | mk d =>
    constructor
    · intro h
      have hd : d = [] := List.length_eq_zero.mp h
      subst hd
      rfl
    · intro h
      rw [h]
      rfl

theorem differ_empty_left (b : String) : differ "" b = false := by
  simp [differ]

theorem differ_empty_right (a : String) : differ a "" = false := by
  simp [differ]

theorem charMatches_self (l : List Char) : charMatches l l = l.length := by
  unfold charMatches
  calc (l.dedup.map fun c => min (l.count c) (l.count c)).sum
      = (l.dedup.map fun c => l.count c).sum := by simp
    _ = l.length := List.sum_map_count_dedup_eq_length l

theorem quick_ratio_self (l : List Char) (h : l ≠ []) : quick_ratio l l = 1 := by
  unfold quick_ratio
  rw [charMatches_self]
  have h1 : 0 < l.length := List.length_pos.mpr h
  have hlen : (l.length : ℚ) ≠ 0 := Nat.cast_ne_zero.mpr (by omega)
  field_simp
  ring

theorem differ_self (x : String) (hx : x ≠ "") : differ x x = false := by
  have hlen : x.length ≠ 0 := fun h => hx ((strLength_eq_zero_iff x).mp h)
  have hdata : x.data ≠ [] := by
    intro h
    apply hlen
    show x.data.length = 0
    simp [h]
  unfold differ
  rw [if_neg (by simp [hlen])]
  rw [if_neg ?hc]
  case hc =>
    intro hgt
    have hz : natAbsDiff x.length x.length = 0 := by simp [natAbsDiff]
    rw [hz] at hgt
    norm_num at hgt
  rw [quick_ratio_self x.data hdata]
  norm_num

/-! `mutate_payload` lemmas: no duplicates, and the head is the original. -/

theorem addMut_nodup (l : List (List Char)) (x : List Char) (h : l.Nodup) :
    (addMut l x).Nodup := by
  unfold addMut
  split
  · exact h
  · next hcond =>
    have hx : x ∉ l := fun hm => hcond (Or.inr hm)
    simp [List.nodup_append, h, hx]

theorem foldl_addMut_nodup (vs : List (List Char)) :
    ∀ l : List (List Char), l.Nodup → (vs.foldl addMut l).Nodup := by
  induction vs with
  | nil => intro l h; exact h
  | cons v vs ih => intro l h; exact ih (addMut l v) (addMut_nodup l v h)

theorem addMut_ne_nil (l : List (List Char)) (x : List Char) (h : l ≠ []) :
    addMut l x ≠ [] := by
  unfold addMut
  split
  · exact h
  · simp

theorem addMut_head (l : List (List Char)) (x : List Char) (h : l ≠ []) :
    (addMut l x).head? = l.head? := by
  unfold addMut
  split
  · rfl
  · cases l with
    | nil => exact absurd rfl h
    | cons a as => rfl

theorem foldl_addMut_head (vs : List (List Char)) :
    ∀ l : List (List Char), l ≠ [] → (vs.foldl addMut l).head? = l.head? := by
  induction vs with
  | nil => intro l _; rfl
  | cons v vs ih =>
    intro l h
    rw [List.foldl_cons, ih (addMut l v) (addMut_ne_nil l v h), addMut_head l v h]

theorem mutatePayloadL_nodup (p : List Char) : (mutatePayloadL p).Nodup :=
  foldl_addMut_nodup (mutateVariants p) [] List.nodup_nil

theorem mutateVariants_cons (p : List Char) :
    ∃ rest, mutateVariants p = p :: rest := ⟨_, rfl⟩

theorem mutatePayloadL_head (p : List Char) (hp : p ≠ []) :
    (mutatePayloadL p).head? = some p := by
  obtain ⟨rest, hrest⟩ := mutateVariants_cons p
  unfold mutatePayloadL
  rw [hrest, List.foldl_cons]
  have h1 : addMut [] p = [p] := by
    unfold addMut
    rw [if_neg (by simp [hp])]
    rfl
  rw [h1, foldl_addMut_head rest [p] (by simp)]
  rfl

theorem asString_data (s : String) : s.data.asString = s := rfl

theorem asString_injective : Function.Injective List.asString := by
  intro a b h
  exact congrArg String.data h

theorem mutate_payload_nodup (p : String) : (mutate_payload p).Nodup :=
  (mutatePayloadL_nodup p.data).map asString_injective

theorem mutate_payload_head (p : String) (hp : p ≠ "") :
    (mutate_payload p).head? = some p := by
  have hdata : p.data ≠ [] := by
    intro h
    apply hp
    have : p.length = 0 := by show p.data.length = 0; simp [h]
    exact (strLength_eq_zero_iff p).mp this
  unfold mutate_payload
  rw [List.head?_map, mutatePayloadL_head p.data hdata]
  simp [asString_data]

theorem mutatePayloadHead_eq (p : String) (hp : p ≠ "") : mutatePayloadHead p = p := by
  unfold mutatePayloadHead
  have := mutate_payload_head p hp
  cases hm : mutate_payload p with
  | nil => rw [hm] at this; simp at this
  | cons a l =>
    rw [hm] at this
    simp at this
    simp [this]

/-! `fetch` retry-loop lemmas: the two complete runs (all attempts retryable;
first non-retryable attempt at `i`). -/

theorem fetchAuxF_all_retry (att : Nat → AttemptRes) (jit : Nat → ℚ) (backoff : ℚ)
    (mr : Nat) :
    ∀ f k, k + f = mr + 1 → (∀ i, i ≤ mr → retryable (att i) = true) →
      fetchAuxF att jit backoff mr f k =
        ⟨none, "", f, delaysFrom jit backoff k (f - 1)⟩ := by
  intro f
  induction f with
  | zero => intro k _ _; rfl
  | succ f ih =>
    intro k hk hr
    have step : ∀ h : ¬ mr ≤ k,
        (let rest := fetchAuxF att jit backoff mr f (k+1)
         (⟨rest.status, rest.body, rest.requests + 1,
            (backoff * 2 ^ k + jit k) :: rest.delays⟩ : FetchOut)) =
          ⟨none, "", f + 1, delaysFrom jit backoff k (f + 1 - 1)⟩ := by
      intro h
      rw [ih (k+1) (by omega) hr]
      obtain ⟨m, hm⟩ : ∃ m, f = m + 1 := ⟨f - 1, by omega⟩
      subst hm
      rfl
    unfold fetchAuxF
    cases hatt : att k with
    | exn =>
      dsimp only
      by_cases hmk : mr ≤ k
      · have hf : f = 0 := by omega
        subst hf
        rw [if_pos hmk]
        rfl
      · rw [if_neg hmk]
        exact step hmk
    | ok st body =>
      have hretry : (st = 429 || (500 ≤ st && st < 600)) = true := by
        have h1 := hr k (by omega)
        rw [hatt] at h1
        exact h1
      dsimp only
      rw [if_pos hretry]
      by_cases hmk : mr ≤ k
      · have hf : f = 0 := by omega
        subst hf
        rw [if_pos hmk]
        rfl
      · rw [if_neg hmk]
        exact step hmk

theorem fetch_all_retry (att : Nat → AttemptRes) (jit : Nat → ℚ) (backoff : ℚ) (mr : Nat)
    (hr : ∀ i, i ≤ mr → retryable (att i) = true) :
    fetch att jit backoff mr = ⟨none, "", mr + 1, delaysFrom jit backoff 0 mr⟩ := by
  unfold fetch
  rw [fetchAuxF_all_retry att jit backoff mr (mr + 1) 0 (by omega) hr]
  simp

theorem fetchAuxF_first_ok (att : Nat → AttemptRes) (jit : Nat → ℚ) (backoff : ℚ)
    (mr : Nat) :
    ∀ f k i st body, k + f = mr + 1 → k ≤ i → i ≤ mr →
      (∀ j, k ≤ j → j < i → retryable (att j) = true) →
      att i = .ok st body → retryable (.ok st body) = false →
      fetchAuxF att jit backoff mr f k =
        ⟨some st, body, i + 1 - k, delaysFrom jit backoff k (i - k)⟩ := by
  intro f
  induction f with
  | zero => intro k i st body hk hki him _ _ _; exfalso; omega
  | succ f ih =>
    intro k i st body hk hki him hj hatt hnr
    by_cases hik : i = k
    · subst hik
      unfold fetchAuxF
      rw [hatt]
      dsimp only
      have hcond : ¬ (st = 429 || (500 ≤ st && st < 600)) = true := by
        intro hc
        rw [show ((st = 429 || (500 ≤ st && st < 600)) : Bool) = retryable (.ok st body)
              from rfl] at hc
        rw [hnr] at hc
        cases hc
      rw [if_neg hcond]
      have h1 : i + 1 - i = 1 := by omega
      have h2 : i - i = 0 := by omega
      rw [h1, h2]
      rfl
    · have hki' : k < i := lt_of_le_of_ne hki fun h => hik h.symm
      have hrk : retryable (att k) = true := hj k le_rfl hki'
      have hmk : ¬ mr ≤ k := by omega
      have tailEq :
          (let rest := fetchAuxF att jit backoff mr f (k+1)
           (⟨rest.status, rest.body, rest.requests + 1,
              (backoff * 2 ^ k + jit k) :: rest.delays⟩ : FetchOut)) =
            ⟨some st, body, i + 1 - k, delaysFrom jit backoff k (i - k)⟩ := by
        rw [ih (k+1) i st body (by omega) (by omega) him
              (fun j h1 h2 => hj j (by omega) h2) hatt hnr]
        have h1 : i + 1 - (k + 1) + 1 = i + 1 - k := by omega
        have h2 : (backoff * 2 ^ k + jit k) :: delaysFrom jit backoff (k+1) (i - (k+1)) =
            delaysFrom jit backoff k (i - k) := by
          obtain ⟨m, hm⟩ : ∃ m, i - k = m + 1 := ⟨i - k - 1, by omega⟩
          rw [hm]
          have h3 : i - (k + 1) = m := by omega
          rw [h3]
          rfl
        dsimp only
        rw [h1, h2]
      unfold fetchAuxF
      cases hattk : att k with
      | exn =>
        dsimp only
        rw [if_neg hmk]
        exact tailEq
      | ok st' body' =>
        have hretry : (st' = 429 || (500 ≤ st' && st' < 600)) = true := by
          have h1 := hrk
          rw [hattk] at h1
          exact h1
        dsimp only
        rw [if_pos hretry, if_neg hmk]
        exact tailEq

theorem fetch_first_ok (att : Nat → AttemptRes) (jit : Nat → ℚ) (backoff : ℚ) (mr : Nat)
    (i : Nat) (st : Nat) (body : String) (him : i ≤ mr)
    (hj : ∀ j, j < i → retryable (att j) = true)
    (hatt : att i = .ok st body) (hnr : retryable (.ok st body) = false) :
    fetch att jit backoff mr = ⟨some st, body, i + 1, delaysFrom jit backoff 0 i⟩ := by
  unfold fetch
  have h := fetchAuxF_first_ok att jit backoff mr (mr + 1) 0 i st body (by omega)
    (Nat.zero_le i) him (fun j _ h2 => hj j h2) hatt hnr
  simpa using h

/-! Boolean-round lemmas. -/

theorem boolRounds_spec (env : Env) :
    ∀ r idx, (boolRounds env r idx).1 = idx + 2 * r ∧
      (boolRounds env r idx).2.1 = boolDiffCount env r idx ∧
      (boolRounds env r idx).2.2.length = r := by
  intro r
  induction r with
  | zero => intro idx; refine ⟨by simp [boolRounds], rfl, rfl⟩
  | succ r ih =>
    intro idx
    obtain ⟨h1, h2, h3⟩ := ih (idx + 2)
    refine ⟨?_, ?_, ?_⟩
    · show (boolRounds env r (idx + 2)).1 = idx + 2 * (r + 1)
      rw [h1]; ring
    · show (if differ (env idx).body (env (idx+1)).body then 1 else 0) +
        (boolRounds env r (idx + 2)).2.1 = boolDiffCount env (r+1) idx
      rw [h2]; rfl
    · show (quick_ratio (env idx).body.data (env (idx+1)).body.data ::
        (boolRounds env r (idx + 2)).2.2).length = r + 1
      simp [h3]

/-! What the phases do on a network that always fails: empty body everywhere
means no error-based, boolean-blind, or union-based candidate. -/

theorem errorCandsOfResponse_empty (p mp : String) (st : Option Nat) :
    errorCandsOfResponse p mp st "" = [] := rfl

theorem errorPhaseMuts_empty (env : Env) (p : String)
    (hE : ∀ i, (env i).body = "") :
    ∀ (mps : List String) (idx : Nat), (errorPhaseMuts env p mps idx).2 = [] := by
  intro mps
  induction mps with
  | nil => intro idx; rfl
  | cons mp rest ih =>
    intro idx
    show (errorCandsOfResponse p mp (env idx).status (env idx).body ++
      (errorPhaseMuts env p rest (idx + 1)).2) = []
    rw [hE idx, errorCandsOfResponse_empty, ih (idx + 1)]
    rfl

theorem errorPhasePays_empty (env : Env) (p : String)
    (hE : ∀ i, (env i).body = "") :
    ∀ (pays : List String) (idx : Nat), (errorPhasePays env p pays idx).2 = [] := by
  intro pays
  induction pays with
  | nil => intro idx; rfl
  | cons pay rest ih =>
    intro idx
    show ((errorPhaseMuts env p (mutate_payload pay) idx).2 ++
      (errorPhasePays env p rest (errorPhaseMuts env p (mutate_payload pay) idx).1).2) = []
    rw [errorPhaseMuts_empty env p hE, ih]
    rfl

theorem errorPhaseSeeds_empty (env : Env) (p : String)
    (hE : ∀ i, (env i).body = "") :
    ∀ (seeds : List String) (idx : Nat), (errorPhaseSeeds env p seeds idx).2 = [] := by
  intro seeds
  induction seeds with
  | nil => intro idx; rfl
  | cons s rest ih =>
    intro idx
    show ((errorPhasePays env p PAYLOADS_error idx).2 ++
      (errorPhaseSeeds env p rest (errorPhasePays env p PAYLOADS_error idx).1).2) = []
    rw [errorPhasePays_empty env p hE, ih]
    rfl

theorem error_phase_empty (cfg : ScanCfg) (env : Env)
    (hE : ∀ i, (env i).body = "") :
    ∀ (ps : List (String × String)) (idx : Nat), (error_phase cfg env ps idx).2 = [] := by
  intro ps
  induction ps with
  | nil => intro idx; rfl
  | cons pv rest ih =>
    intro idx
    show ((errorPhaseSeeds env pv.1 (seedValues cfg pv.2) idx).2 ++
      (error_phase cfg env rest (errorPhaseSeeds env pv.1 (seedValues cfg pv.2) idx).1).2) = []
    rw [errorPhaseSeeds_empty env pv.1 hE, ih]
    rfl

theorem boolDiffCount_empty (env : Env) (hE : ∀ i, (env i).body = "") :
    ∀ r idx, boolDiffCount env r idx = 0 := by
  intro r
  induction r with
  | zero => intro idx; rfl
  | succ r ih =>
    intro idx
    show (if differ (env idx).body (env (idx+1)).body then 1 else 0) +
      boolDiffCount env r (idx + 2) = 0
    rw [hE idx, hE (idx + 1), differ_empty_left, ih (idx + 2)]
    rfl

theorem boolContext_empty (cfg : ScanCfg) (env : Env) (p tPay fPay : String) (idx : Nat)
    (hE : ∀ i, (env i).body = "") :
    (boolContext cfg env p tPay fPay idx).2 = [] := by
  have hd : (boolRounds env cfg.boolean_rounds idx).2.1 = 0 := by
    rw [(boolRounds_spec env cfg.boolean_rounds idx).2.1,
      boolDiffCount_empty env hE cfg.boolean_rounds idx]
  simp only [boolContext]
  rw [hd, if_neg (by simp)]

theorem booleanPhaseSeeds_empty (cfg : ScanCfg) (env : Env) (p : String)
    (hE : ∀ i, (env i).body = "") :
    ∀ (seeds : List String) (idx : Nat), (booleanPhaseSeeds cfg env p seeds idx).2 = [] := by
  intro seeds
  induction seeds with
  | nil => intro idx; rfl
  | cons s rest ih =>
    intro idx
    simp only [booleanPhaseSeeds]
    rw [boolContext_empty cfg env p _ _ _ hE, boolContext_empty cfg env p _ _ _ hE, ih]
    rfl

theorem boolean_phase_empty (cfg : ScanCfg) (env : Env)
    (hE : ∀ i, (env i).body = "") :
    ∀ (ps : List (String × String)) (idx : Nat), (boolean_phase cfg env ps idx).2 = [] := by
  intro ps
  induction ps with
  | nil => intro idx; rfl
  | cons pv rest ih =>
    intro idx
    show ((booleanPhaseSeeds cfg env pv.1 (seedValues cfg pv.2) idx).2 ++ _) = []
    rw [booleanPhaseSeeds_empty cfg env pv.1 hE, ih]
    rfl

theorem unionAcceptHere_empty : unionAcceptHere "" "" = false := rfl

theorem unionColSearch_empty (env : Env) (hE : ∀ i, (env i).body = "") :
    ∀ (rem n idx : Nat), (unionColSearch env n rem idx).2 = none := by
  intro rem
  induction rem with
  | zero => intro n idx; rfl
  | succ rem ih =>
    intro n idx
    show (if unionAcceptHere (env idx).body (env (idx+1)).body then (idx + 2, some n)
      else unionColSearch env (n + 1) rem (idx + 2)).2 = none
    rw [hE idx, hE (idx + 1), unionAcceptHere_empty, if_neg (by simp)]
    exact ih (n + 1) (idx + 2)

theorem unionColSearch_some_spec (env : Env) :
    ∀ (rem n idx k : Nat), (unionColSearch env n rem idx).2 = some k →
      n ≤ k ∧ k < n + rem ∧ unionAcceptAt env idx n k = true ∧
      (∀ m, n ≤ m → m < k → unionAcceptAt env idx n m = false) ∧
      (unionColSearch env n rem idx).1 = idx + 2 * (k - n) + 2 := by
  intro rem
  induction rem with
  | zero => intro n idx k h; cases h
  | succ rem ih =>
    intro n idx k h
    have hunfold : unionColSearch env n (rem + 1) idx =
        (if unionAcceptHere (env idx).body (env (idx+1)).body then (idx + 2, some n)
         else unionColSearch env (n + 1) rem (idx + 2)) := rfl
    by_cases hA : unionAcceptHere (env idx).body (env (idx + 1)).body = true
    · have hres : unionColSearch env n (rem + 1) idx = (idx + 2, some n) := by
        rw [hunfold, if_pos hA]
      have hk : k = n := by
        rw [hres] at h
        exact (Option.some_inj.mp h).symm
      subst hk
      refine ⟨le_rfl, by omega, ?_, fun m hm1 hm2 => by omega, ?_⟩
      · show unionAcceptHere (env (idx + 2 * (k - k))).body
          (env (idx + 2 * (k - k) + 1)).body = true
        simpa using hA
      · rw [hres]
        simp
    · have hstep : unionColSearch env n (rem + 1) idx = unionColSearch env (n + 1) rem (idx + 2) := by
        rw [hunfold, if_neg hA]
      rw [hstep] at h
      obtain ⟨h1, h2, h3, h4, h5⟩ := ih (n + 1) (idx + 2) k h
      have hkn : n + 1 ≤ k := h1
      refine ⟨by omega, by omega, ?_, ?_, ?_⟩
      · show unionAcceptHere (env (idx + 2 * (k - n))).body (env (idx + 2 * (k - n) + 1)).body = true
        have harg : idx + 2 * (k - n) = idx + 2 + 2 * (k - (n + 1)) := by omega
        rw [harg]
        exact h3
      · intro m hm1 hm2
        by_cases hmn : m = n
        · subst hmn
          show unionAcceptHere (env (idx + 2 * (m - m))).body (env (idx + 2 * (m - m) + 1)).body = false
          simp only [Nat.sub_self, Nat.mul_zero, Nat.add_zero]
          exact eq_false_of_ne_true hA
        · have hm1' : n + 1 ≤ m := by omega
          have harg : idx + 2 * (m - n) = idx + 2 + 2 * (m - (n + 1)) := by omega
          show unionAcceptHere (env (idx + 2 * (m - n))).body (env (idx + 2 * (m - n) + 1)).body = false
          rw [harg]
          exact h4 m hm1' hm2
      · rw [hstep, h5]
        omega

theorem unionColSearch_none_spec (env : Env) :
    ∀ (rem n idx : Nat), (unionColSearch env n rem idx).2 = none →
      (∀ m, n ≤ m → m < n + rem → unionAcceptAt env idx n m = false) ∧
      (unionColSearch env n rem idx).1 = idx + 2 * rem := by
  intro rem
  induction rem with
  | zero =>
    intro n idx _
    exact ⟨fun m h1 h2 => by omega, by simp [unionColSearch]⟩
  | succ rem ih =>
    intro n idx h
    by_cases hA : unionAcceptHere (env idx).body (env (idx + 1)).body = true
    · exfalso
      have : unionColSearch env n (rem + 1) idx = (idx + 2, some n) := by
        show (if unionAcceptHere (env idx).body (env (idx+1)).body then (idx + 2, some n)
          else unionColSearch env (n + 1) rem (idx + 2)) = _
        rw [if_pos hA]
      rw [this] at h
      cases h
    · have hstep : unionColSearch env n (rem + 1) idx = unionColSearch env (n + 1) rem (idx + 2) := by
        show (if unionAcceptHere (env idx).body (env (idx+1)).body then (idx + 2, some n)
          else unionColSearch env (n + 1) rem (idx + 2)) = _
        rw [if_neg hA]
      rw [hstep] at h
      obtain ⟨h1, h2⟩ := ih (n + 1) (idx + 2) h
      constructor
      · intro m hm1 hm2
        by_cases hmn : m = n
        · subst hmn
          show unionAcceptHere (env (idx + 2 * (m - m))).body (env (idx + 2 * (m - m) + 1)).body = false
          simp only [Nat.sub_self, Nat.mul_zero, Nat.add_zero]
          exact eq_false_of_ne_true hA
        · have harg : idx + 2 * (m - n) = idx + 2 + 2 * (m - (n + 1)) := by omega
          show unionAcceptHere (env (idx + 2 * (m - n))).body (env (idx + 2 * (m - n) + 1)).body = false
          rw [harg]
          exact h1 m (by omega) (by omega)
      · rw [hstep, h2]
        omega

theorem unionPhaseParams_empty (cfg : ScanCfg) (env : Env) (baseline : String)
    (hE : ∀ i, (env i).body = "") :
    ∀ (ps : List (String × String)) (idx : Nat),
      (unionPhaseParams cfg env baseline ps idx).2 = [] := by
  intro ps
  induction ps with
  | nil => intro idx; rfl
  | cons pv rest ih =>
    intro idx
    simp only [unionPhaseParams]
    rw [unionColSearch_empty env hE]
    dsimp only
    rw [ih]
    rfl

theorem natAbsDiff_cast_q (m n : Nat) : ((natAbsDiff m n : Nat) : ℚ) = |(m : ℚ) - n| := by
  unfold natAbsDiff
  rcases le_total m n with h | h
  · rw [max_eq_right h, min_eq_left h, abs_sub_comm,
      abs_of_nonneg (sub_nonneg.mpr (by exact_mod_cast h))]
    push_cast [h]
    ring
  · rw [max_eq_left h, min_eq_right h,
      abs_of_nonneg (sub_nonneg.mpr (by exact_mod_cast h))]
    push_cast [h]
    ring

/-! Target-registry lemmas. -/

theorem insertPair_ne_nil (x : String × String) (l : List (String × String)) :
    insertPair x l ≠ [] := by
  cases l with
  | nil => simp [insertPair]
  | cons y ys =>
    unfold insertPair
    split <;> simp

theorem sortPairs_eq_nil (l : List (String × String)) (h : sortPairs l = []) : l = [] := by
  cases l with
  | nil => rfl
  | cons x xs =>
    exfalso
    exact insertPair_ne_nil x (sortPairs xs) h

theorem dedupTargetsGo_subset :
    ∀ (l : List Target) (seen : List (String × Url × List (String × String))) (t : Target),
      t ∈ dedupTargetsGo seen l → t ∈ l := by
  intro l
  induction l with
  | nil => intro seen t h; simp [dedupTargetsGo] at h
  | cons t0 rest ih =>
    intro seen t h
    unfold dedupTargetsGo at h
    split at h
    · exact List.mem_cons_of_mem _ (ih _ t h)
    · rcases List.mem_cons.mp h with h' | h'
      · exact h' ▸ List.mem_cons_self t0 rest
      · exact List.mem_cons_of_mem _ (ih _ t h')

theorem dedupTargetsGo_covers :
    ∀ (l : List Target) (seen : List (String × Url × List (String × String))) (t : Target),
      t ∈ l → targetKey t ∈ seen ∨
        ∃ t' ∈ dedupTargetsGo seen l, targetKey t' = targetKey t := by
  intro l
  induction l with
  | nil => intro seen t h; simp at h
  | cons t0 rest ih =>
    intro seen t ht
    unfold dedupTargetsGo
    rcases List.mem_cons.mp ht with rfl | hmem
    · by_cases hk : targetKey t ∈ seen
      · left; exact hk
      · right
        rw [if_neg hk]
        exact ⟨t, List.mem_cons_self t _, rfl⟩
    · by_cases hk : targetKey t0 ∈ seen
      · rw [if_pos hk]
        exact ih seen t hmem
      · rw [if_neg hk]
        rcases ih (targetKey t0 :: seen) t hmem with h | ⟨t', ht', hkey⟩
        · rcases List.mem_cons.mp h with h' | h'
          · right; exact ⟨t0, List.mem_cons_self t0 _, h'.symm⟩
          · left; exact h'
        · right; exact ⟨t', List.mem_cons_of_mem _ ht', hkey⟩

/-! ## The claims -/

/-- C8: `Differ(a, b)` is true iff both bodies are non-empty and either the
length gap exceeds `max(50, 0.02 * max(len a, len b))` or the sequence
matcher's quick ratio is below 0.90; an empty body on either side gives
false; consequently `Differ(x, x) = false` for every non-empty `x`. -/
theorem C8_differ_spec (a b x : String) :
    (differ a b = true ↔
      a ≠ "" ∧ b ≠ "" ∧
        (max (50 : ℚ) ((2 / 100) * ((max a.length b.length : Nat) : ℚ)) <
            |(a.length : ℚ) - (b.length : ℚ)| ∨
          quick_ratio a.data b.data < 90 / 100)) ∧
    differ "" b = false ∧ differ a "" = false ∧
    (x ≠ "" → differ x x = false) := by
  refine ⟨?_, differ_empty_left b, differ_empty_right a, differ_self x⟩
  by_cases ha : a.length = 0
  · rw [(strLength_eq_zero_iff a).mp ha]
    simp [differ_empty_left]
  · by_cases hb : b.length = 0
    · rw [(strLength_eq_zero_iff b).mp hb]
      simp [differ_empty_right]
    · have ha' : a ≠ "" := fun h => ha ((strLength_eq_zero_iff a).mpr h)
      have hb' : b ≠ "" := fun h => hb ((strLength_eq_zero_iff b).mpr h)
      unfold differ
      rw [if_neg (by simp [ha, hb])]
      rw [natAbsDiff_cast_q]
      by_cases hlen : max (50 : ℚ) ((2 / 100) * ((max a.length b.length : Nat) : ℚ)) <
          |(a.length : ℚ) - (b.length : ℚ)|
      · rw [if_pos hlen]
        exact ⟨fun _ => ⟨ha', hb', Or.inl hlen⟩, fun _ => rfl⟩
      · rw [if_neg hlen, decide_eq_true_eq]
        constructor
        · intro h
          exact ⟨ha', hb', Or.inr h⟩
        · rintro ⟨-, -, h | h⟩
          · exact absurd h hlen
          · exact h

theorem C8_differ_spec_witness : differ "xy" "xy" = false :=
  (C8_differ_spec "a" "b" "xy").2.2.2 (by decide)

/-- C9 (amended): `mutate_payload` is a pure function of its input (the
case-randomisation stream is the fixed `random.Random(42)` stream, so every
call yields the same sequence), the sequence has no duplicates, and for
every NON-EMPTY payload its first element is the original payload.  (For
the empty payload the sequence is empty — see the counterexample.) -/
theorem C9_mutate_payload (p : String) :
    mutate_payload p = mutate_payload p ∧
    (mutate_payload p).Nodup ∧
    (p ≠ "" → (mutate_payload p).head? = some p) :=
  ⟨rfl, mutate_payload_nodup p, fun hp => mutate_payload_head p hp⟩

/-- C9 counterexample: at `p = ""` every variant is the empty string, `add`
drops them all, and the returned sequence is empty — it has no first
element, so "its first element is the original payload p" fails. -/
theorem C9_counterexample :
    mutate_payload "" = [] ∧ (mutate_payload "").head? ≠ some "" :=
  ⟨by decide, by decide⟩

theorem C9_mutate_payload_witness :
    (mutate_payload "'").Nodup ∧ (mutate_payload "'").head? = some "'" :=
  ⟨(C9_mutate_payload "'").2.1, (C9_mutate_payload "'").2.2 (by decide)⟩

/-- C7: across one scan (the store and its `_seen_findings` set are shared
by every target), with noise grouping no two recorded findings agree on all
of (url, method, param, technique); without noise grouping no two agree on
those four plus the payload. -/
theorem C7_dedup (cfg : ScanCfg) (runs : List (Env × Target)) :
    (cfg.noise_grouping = true →
      (run_scan cfg Store.empty runs).results.Pairwise fun f g =>
        ¬(f.url = g.url ∧ f.ttype = g.ttype ∧ f.param = g.param ∧
          f.technique = g.technique)) ∧
    (cfg.noise_grouping = false →
      (run_scan cfg Store.empty runs).results.Pairwise fun f g =>
        ¬(f.url = g.url ∧ f.ttype = g.ttype ∧ f.param = g.param ∧
          f.technique = g.technique ∧ f.payload = g.payload)) := by
  have hinv := run_scan_inv cfg runs Store.empty (storeInv_empty cfg.noise_grouping)
  constructor
  · intro hn
    refine hinv.2.imp ?_
    intro f g hkey ⟨h1, h2, h3, h4⟩
    apply hkey
    unfold keyOfFinding findingKey
    rw [hn, h1, h2, h3, h4]
    rfl
  · intro hn
    refine hinv.2.imp ?_
    intro f g hkey ⟨h1, h2, h3, h4, h5⟩
    apply hkey
    unfold keyOfFinding findingKey
    rw [hn, h1, h2, h3, h4, h5]

/-- C6: the retry policy of `fetch`.  At most `1 + max_retries` requests are
issued; every non-final request's attempt was retryable (transport failure,
429, or 5xx); the delay before the (k+1)-th retry is
`backoff_base * 2^k + jitter(k)` with the jitter in `[0, 0.2]`; exhausting
the retries returns status `None` and empty body; and against a server
answering 500 then 200 with `max_retries ≥ 1`, exactly two requests are
issued and the 200 body is returned. -/
theorem C6_fetch_retry (att : Nat → AttemptRes) (jit : Nat → ℚ) (backoff : ℚ)
    (mr : Nat) (b1 b2 : String) :
    (1 ≤ (fetch att jit backoff mr).requests ∧
      (fetch att jit backoff mr).requests ≤ mr + 1) ∧
    (∀ i, i + 1 < (fetch att jit backoff mr).requests → retryable (att i) = true) ∧
    ((fetch att jit backoff mr).delays.length = (fetch att jit backoff mr).requests - 1) ∧
    (∀ k (hk : k < (fetch att jit backoff mr).delays.length),
      (fetch att jit backoff mr).delays.get ⟨k, hk⟩ = backoff * 2 ^ k + jit k) ∧
    ((fetch att jit backoff mr).status = none →
      (fetch att jit backoff mr).body = "" ∧
      (fetch att jit backoff mr).requests = mr + 1 ∧
      ∀ i, i ≤ mr → retryable (att i) = true) ∧
    ((∀ k, 0 ≤ jit k ∧ jit k ≤ 1/5) →
      ∀ k (hk : k < (fetch att jit backoff mr).delays.length),
        backoff * 2 ^ k ≤ (fetch att jit backoff mr).delays.get ⟨k, hk⟩ ∧
        (fetch att jit backoff mr).delays.get ⟨k, hk⟩ ≤ backoff * 2 ^ k + 1/5) ∧
    (1 ≤ mr → att 0 = .ok 500 b1 → att 1 = .ok 200 b2 →
      fetch att jit backoff mr = ⟨some 200, b2, 2, [backoff * 2 ^ 0 + jit 0]⟩) := by
  have hdellen : ∀ n, (delaysFrom jit backoff 0 n).length = n := by
    intro n
    simp [delaysFrom]
  have hdel : ∀ n k (hk : k < (delaysFrom jit backoff 0 n).length),
      (delaysFrom jit backoff 0 n).get ⟨k, hk⟩ = backoff * 2 ^ k + jit k := by
    intro n k hk
    have hk' : k < (List.range' 0 n).length := by
      simpa [delaysFrom] using hk
    show (List.map (fun j => backoff * 2 ^ j + jit j) (List.range' 0 n)).get ⟨k, hk⟩ =
      backoff * 2 ^ k + jit k
    rw [List.get_eq_getElem, List.getElem_map, List.getElem_range'_1]
    norm_num
  have scenario : 1 ≤ mr → att 0 = .ok 500 b1 → att 1 = .ok 200 b2 →
      fetch att jit backoff mr = ⟨some 200, b2, 2, [backoff * 2 ^ 0 + jit 0]⟩ := by
    intro hmr h0 h1
    have h := fetch_first_ok att jit backoff mr 1 200 b2 hmr ?hj h1 rfl
    case hj =>
      intro j hj1
      have hj0 : j = 0 := by omega
      subst hj0
      rw [h0]
      rfl
    rw [h]
    rfl
  by_cases hall : ∀ i, i ≤ mr → retryable (att i) = true
  · have hout := fetch_all_retry att jit backoff mr hall
    refine ⟨?_, ?_, ?_, ?_, ?_, ?_, scenario⟩
    · rw [hout]; dsimp only; exact ⟨by omega, by omega⟩
    · rw [hout]; intro i hi; dsimp only at hi; exact hall i (by omega)
    · rw [hout]; simp [delaysFrom]
    · rw [hout]; intro k hk; exact hdel mr k hk
    · rw [hout]; intro _; exact ⟨rfl, rfl, hall⟩
    · rw [hout]
      intro hj k hk
      rw [hdel mr k hk]
      have := hj k
      constructor <;> linarith [this.1, this.2]
  · have hex : ∃ i, retryable (att i) = false ∧ i ≤ mr := by
      push_neg at hall
      obtain ⟨i1, hi1le, hi1⟩ := hall
      refine ⟨i1, ?_, hi1le⟩
      cases h : retryable (att i1) with
      | false => rfl
      | true => exact absurd h hi1
    classical
    have hspec : retryable (att (Nat.find hex)) = false ∧ Nat.find hex ≤ mr :=
      Nat.find_spec hex
    have hmin : ∀ j, j < Nat.find hex → retryable (att j) = true := by
      intro j hj
      have hnot := Nat.find_min hex hj
      by_cases hjmr : j ≤ mr
      · cases h : retryable (att j) with
        | true => rfl
        | false => exact absurd ⟨h, hjmr⟩ hnot
      · omega
    obtain ⟨st, body, hatt⟩ : ∃ st body, att (Nat.find hex) = .ok st body := by
      cases h : att (Nat.find hex) with
      | exn =>
        exfalso
        have h2 := hspec.1
        rw [h] at h2
        simp [retryable] at h2
      | ok st body => exact ⟨st, body, rfl⟩
    have hnr : retryable (.ok st body) = false := hatt ▸ hspec.1
    have hout := fetch_first_ok att jit backoff mr (Nat.find hex) st body hspec.2 hmin hatt hnr
    refine ⟨?_, ?_, ?_, ?_, ?_, ?_, scenario⟩
    · rw [hout]; dsimp only; exact ⟨by omega, by omega⟩
    · rw [hout]
      intro i hi
      dsimp only at hi
      exact hmin i (by omega)
    · rw [hout]; simp [delaysFrom]
    · rw [hout]; intro k hk; exact hdel (Nat.find hex) k hk
    · rw [hout]; intro hnone; cases hnone
    · rw [hout]
      intro hj k hk
      rw [hdel (Nat.find hex) k hk]
      have := hj k
      constructor <;> linarith [this.1, this.2]

/-- C10: a visited URL whose query string is non-empty but whose parameters
the query parser all drops (blank values, as in `http://h/?id=`) still
yields a GET target, but with an empty params mapping — and `test_target`
on a target with no params records nothing. -/
theorem C10_blank_query (visited : List Url) (forms : List Target) (u : Url)
    (cfg : ScanCfg) (hu : u ∈ visited) (hq : u.query ≠ "")
    (hblank : parseQsl u.query = []) :
    parseQsl "id=" = [] ∧
    (∃ t ∈ discover_targets visited forms,
      t.ttype = "GET" ∧ t.url = u.dropQuery ∧ t.params = []) ∧
    (∀ (env : Env) (st : Store),
      (test_target cfg env st { ttype := "GET", url := u.dropQuery, params := [] }).results =
        st.results) := by
  refine ⟨by decide, ?_, ?_⟩
  · have hparams : parseQsFirst u.query = [] := by
      unfold parseQsFirst
      rw [hblank]
      rfl
    have hmem : ({ ttype := "GET", url := u.dropQuery, params := parseQsFirst u.query } :
        Target) ∈ (visited.filterMap fun v =>
          if v.query ≠ "" then
            some { ttype := "GET", url := v.dropQuery, params := parseQsFirst v.query }
          else none) ++ forms := by
      refine List.mem_append.mpr (Or.inl ?_)
      refine List.mem_filterMap.mpr ⟨u, hu, ?_⟩
      rw [if_pos hq]
    rcases dedupTargetsGo_covers _ [] _ hmem with h | ⟨t', ht', hkey⟩
    · simp at h
    · refine ⟨t', ht', ?_⟩
      unfold targetKey at hkey
      rw [hparams] at hkey
      have h1 : t'.ttype = "GET" := congrArg Prod.fst hkey
      have h2 : t'.url = u.dropQuery := congrArg (fun x => x.2.1) hkey
      have h3 : sortPairs t'.params = sortPairs [] := congrArg (fun x => x.2.2) hkey
      have h4 : t'.params = [] := sortPairs_eq_nil t'.params (by simpa [sortPairs] using h3)
      exact ⟨h1, h2, h4⟩
  · intro env st
    cases htb : cfg.time_based <;>
      simp [test_target, error_phase, boolean_phase, time_phase, htb, timePhaseParams,
        union_phase, unionPhaseParams, recordAll]

/-- C5 (amended): every finding `test_target` adds carries the target's URL
verbatim (`record` copies `base_url = target['url']`), a param that is a key
of the target's params mapping, and a score clamped into `[0, 10]`; and
every target `discover_targets` yields is either one of the recorded form
targets or has a query-free URL.  (A form target's action URL may retain a
query string — the counterexample — so "URL without query string" holds
only for the targets of the first kind.) -/
theorem C5_finding_fields (cfg : ScanCfg) (env : Env) (st : Store) (t : Target)
    (visited : List Url) (forms : List Target) :
    (∀ f ∈ (test_target cfg env st t).results, f ∈ st.results ∨
      (f.url = t.url ∧ f.param ∈ t.params.map Prod.fst ∧ 0 ≤ f.score ∧ f.score ≤ 10)) ∧
    (∀ tt ∈ discover_targets visited forms, tt ∈ forms ∨ tt.url.query = "") := by
  constructor
  · intro f hf
    simp only [test_target] at hf
    refine recordAll_results_prop
      (fun g => g ∈ st.results ∨
        (g.url = t.url ∧ g.param ∈ t.params.map Prod.fst ∧ 0 ≤ g.score ∧ g.score ≤ 10))
      cfg.noise_grouping t.url t.ttype _ st (fun g hg => Or.inl hg) ?_ f hf
    intro c hc
    right
    refine ⟨rfl, ?_, score_for_nonneg _ _, score_for_le_ten _ _⟩
    show c.param ∈ t.params.map Prod.fst
    rcases List.mem_append.mp hc with h1 | hu
    · rcases List.mem_append.mp h1 with h2 | ht
      · rcases List.mem_append.mp h2 with he | hb
        · exact error_phase_param cfg env t.params 1 c he
        · exact boolean_phase_param cfg env t.params _ c hb
      · exact time_phase_param cfg env t.params _ c ht
    · exact unionPhaseParams_param cfg env _ t.params _ c hu
  · intro tt htt
    have hsub := dedupTargetsGo_subset _ _ tt htt
    rcases List.mem_append.mp hsub with h | h
    · right
      rcases List.mem_filterMap.mp h with ⟨u, _, hfu⟩
      by_cases huq : u.query ≠ ""
      · rw [if_pos huq] at hfu
        have := Option.some_inj.mp hfu
        rw [← this]
        rfl
      · rw [if_neg huq] at hfu
        cases hfu
    · left; exact h

/-- C5 counterexample: the recorded finding's `url` is the form target's URL
with its query string intact, not the URL without query string. -/
theorem C5_counterexample :
    ((test_target cfgDefault envForm Store.empty tForm).results.map fun f => f.url) =
      [⟨"http", "h", "/s", "x=1", ""⟩] ∧
    (⟨"http", "h", "/s", "x=1", ""⟩ : Url) ≠ Url.dropQuery ⟨"http", "h", "/s", "x=1", ""⟩ := by
  constructor
  · decide
  · decide

theorem C10_blank_query_witness :
    parseQsl "id=" = [] ∧
    (∃ t ∈ discover_targets [uBlank] [],
      t.ttype = "GET" ∧ t.url = uBlank.dropQuery ∧ t.params = []) ∧
    (∀ (env : Env) (st : Store),
      (test_target cfgDefault env st
        { ttype := "GET", url := uBlank.dropQuery, params := [] }).results =
        st.results) :=
  C10_blank_query [uBlank] [] uBlank cfgDefault (by decide) (by decide) (by decide)

/-- C3 (amended): a probing request whose retries are exhausted yields
`status = none` and an empty body, and on a network where every request so
failed the error-based, boolean-blind and union-based phases record
nothing — but not the time-based phase, whose check reads only the measured
elapsed time (see the counterexample). -/
theorem C3_failure_semantics (att : Nat → AttemptRes) (jit : Nat → ℚ) (backoff : ℚ)
    (mr : Nat) (cfg : ScanCfg) (env : Env)
    (hr : ∀ i, i ≤ mr → retryable (att i) = true)
    (hE : ∀ i, (env i).body = "") :
    (fetch att jit backoff mr).status = none ∧ (fetch att jit backoff mr).body = "" ∧
    (∀ ps idx, (error_phase cfg env ps idx).2 = []) ∧
    (∀ ps idx, (boolean_phase cfg env ps idx).2 = []) ∧
    (∀ baseline ps idx, (union_phase cfg env baseline ps idx).2 = []) := by
  refine ⟨?_, ?_, error_phase_empty cfg env hE, boolean_phase_empty cfg env hE,
    fun baseline ps idx => unionPhaseParams_empty cfg env baseline hE ps idx⟩
  · rw [fetch_all_retry att jit backoff mr hr]
  · rw [fetch_all_retry att jit backoff mr hr]

theorem C3_failure_semantics_witness :
    (∀ i, i ≤ 2 → retryable (attFail i) = true) ∧
    (∀ i, (envFail i).body = "") ∧
    (fetch attFail (fun _ => 0) 1 2).status = none ∧
    (error_phase cfgTime envFail [("id", "1")] 1).2 = [] := by
  have h := C3_failure_semantics attFail (fun _ => 0) 1 2 cfgTime envFail
    (fun i _ => rfl) (fun i => rfl)
  exact ⟨fun i _ => rfl, fun i => rfl, h.1, h.2.2.1 [("id", "1")] 1⟩

/-- C3 counterexample: on a network where every probing request failed
(status `none`, empty body throughout) the scanner still records a
time-based finding — a failed request CAN produce a finding, because the
time check compares only the elapsed durations. -/
theorem C3_counterexample :
    (∀ i, (envFailTime i).status = none ∧ (envFailTime i).body = "") ∧
    ((test_target cfgTime envFailTime Store.empty tGet).results.map
      fun f => f.technique) = ["time-based"] := by
  refine ⟨fun i => ⟨rfl, rfl⟩, by decide⟩

/-- A boolean context always advances the request index by two per round,
accepted or not. -/
theorem boolContext_idx (cfg : ScanCfg) (env : Env) (p tPay fPay : String) (idx : Nat) :
    (boolContext cfg env p tPay fPay idx).1 = idx + 2 * cfg.boolean_rounds := by
  simp only [boolContext]
  split
  · exact (boolRounds_spec env cfg.boolean_rounds idx).1
  · exact (boolRounds_spec env cfg.boolean_rounds idx).1

/-- C2 (amended): a boolean context records a finding iff the differ count
reaches `max 2 ((boolean_rounds + 1) / 2)` — FLOOR division, i.e.
`max(2, ceil(boolean_rounds / 2))`, not the ceiling of `(rounds+1)/2` the
spec states; the candidate carries technique `boolean-blind`, the parameter
and the `true/false` payload pair; and (without param fuzzing) the phase
runs exactly the numeric then the string context per parameter, the string
context starting `2 * boolean_rounds` requests later. -/
theorem C2_boolean_threshold (cfg : ScanCfg) (env : Env) (p orig tPay fPay : String)
    (idx : Nat) (hf : cfg.param_fuzz = false) :
    ((boolContext cfg env p tPay fPay idx).2 ≠ [] ↔
      max 2 ((cfg.boolean_rounds + 1) / 2) ≤ boolDiffCount env cfg.boolean_rounds idx) ∧
    (∀ c ∈ (boolContext cfg env p tPay fPay idx).2,
      c.tech = "boolean-blind" ∧ c.param = p ∧ c.payload = tPay ++ "/" ++ fPay) ∧
    (boolean_phase cfg env [(p, orig)] idx).2 =
      (boolContext cfg env p (mutatePayloadHead PAYLOADS_boolean_num_true)
        (mutatePayloadHead PAYLOADS_boolean_num_false) idx).2 ++
      (boolContext cfg env p (mutatePayloadHead PAYLOADS_boolean_str_true)
        (mutatePayloadHead PAYLOADS_boolean_str_false) (idx + 2 * cfg.boolean_rounds)).2 := by
  have hdiff := (boolRounds_spec env cfg.boolean_rounds idx).2.1
  refine ⟨?_, ?_, ?_⟩
  · simp only [boolContext, hdiff]
    by_cases h : max 2 ((cfg.boolean_rounds + 1) / 2) ≤ boolDiffCount env cfg.boolean_rounds idx
    · rw [if_pos h]
      simpa using h
    · rw [if_neg h]
      simpa using h
  · intro c hc
    simp only [boolContext] at hc
    split at hc
    · rcases List.mem_singleton.mp hc with rfl
      exact ⟨rfl, rfl, rfl⟩
    · cases hc
  · have hseed : seedValues cfg orig = [orig] := by
      simp [seedValues, hf]
    show (booleanPhaseSeeds cfg env p (seedValues cfg orig) idx).2 ++
      (boolean_phase cfg env [] _).2 = _
    rw [hseed]
    show (boolContext cfg env p (mutatePayloadHead PAYLOADS_boolean_num_true)
        (mutatePayloadHead PAYLOADS_boolean_num_false) idx).2 ++
      (boolContext cfg env p (mutatePayloadHead PAYLOADS_boolean_str_true)
        (mutatePayloadHead PAYLOADS_boolean_str_false)
        (boolContext cfg env p (mutatePayloadHead PAYLOADS_boolean_num_true)
          (mutatePayloadHead PAYLOADS_boolean_num_false) idx).1).2 ++
      (booleanPhaseSeeds cfg env p [] _).2 ++ [] = _
    rw [boolContext_idx]
    show _ ++ _ ++ ([] : List Cand) ++ ([] : List Cand) = _
    rw [List.append_nil, List.append_nil]

theorem C2_boolean_threshold_witness :
    cfg2.param_fuzz = false ∧
    ((boolContext cfg2 env2 "id" "t" "f" 0).2 ≠ [] ↔
      max 2 ((cfg2.boolean_rounds + 1) / 2) ≤ boolDiffCount env2 cfg2.boolean_rounds 0) :=
  ⟨rfl, (C2_boolean_threshold cfg2 env2 "id" "1" "t" "f" 0 rfl).1⟩

/-- C2 counterexample: with `boolean_rounds = 4` the claim's threshold
`max(2, ceil((4+1)/2)) = 3` exceeds the differ count 2, yet the phase
records the finding (the source floors: `max(2, (4+1)//2) = 2`). -/
theorem C2_counterexample :
    boolDiffCount env2 4 0 = 2 ∧
    (2 : ℤ) < max 2 ⌈((4 : ℚ) + 1) / 2⌉ ∧
    ((boolContext cfg2 env2 "id" "t" "f" 0).2.map fun c => c.tech) = ["boolean-blind"] := by
  refine ⟨by decide, by decide, by decide⟩

/-- The source's per-count acceptance, unfolded: at least one of the two
responses non-empty, and neither showing a column-count mismatch. -/
theorem unionAcceptHere_iff (txt_n txt_s : String) :
    unionAcceptHere txt_n txt_s = true ↔
      ((txt_n ≠ "" ∨ txt_s ≠ "") ∧
        has_col_mismatch txt_n = false ∧ has_col_mismatch txt_s = false) := by
  simp only [unionAcceptHere, Bool.and_eq_true, Bool.or_eq_true, decide_eq_true_eq,
    Bool.not_eq_true']
  constructor
  · rintro ⟨hne, hn, hs⟩
    exact ⟨hne.imp And.left And.left, hn, hs⟩
  · rintro ⟨hne, hn, hs⟩
    exact ⟨hne.imp (fun h => ⟨h, hn⟩) (fun h => ⟨h, hs⟩), hn, hs⟩

/-- The non-empty-body guard on the confirmation response is redundant: on
an empty body the marker test and `Differ` are both already false. -/
theorem union_record_guard (txt baseline : String) :
    (txt ≠ "" && (containsSubL unionMark.data txt.data || differ txt baseline)) =
      (containsSubL unionMark.data txt.data || differ txt baseline) := by
  by_cases h : txt = ""
  · subst h
    rw [differ_empty_left]
    rfl
  · simp [h]

/-- C4 (amended): when the union column search accepts `k`, then `k` is the
FIRST count in `1..union_max_columns` whose probe pair has at least one
non-empty response and neither response showing a column-count-mismatch
pattern (the claim's rule omits the non-emptiness requirement — see the
counterexample); and the phase then records exactly one `union-confirmed`
candidate with the middle-NULL marker payload, evidence `columns=k` and
structured field `columns := some k` iff the marker appears in the
confirmation body or `Differ(confirmation body, baseline)` holds. -/
theorem C4_union_phase (cfg : ScanCfg) (env : Env) (baseline p orig : String)
    (idx k : Nat) (hk : (unionColSearch env 1 cfg.union_max_columns idx).2 = some k) :
    (∀ txt_n txt_s, unionAcceptHere txt_n txt_s = true ↔
      ((txt_n ≠ "" ∨ txt_s ≠ "") ∧
        has_col_mismatch txt_n = false ∧ has_col_mismatch txt_s = false)) ∧
    1 ≤ k ∧ k < 1 + cfg.union_max_columns ∧
    unionAcceptAt env idx 1 k = true ∧
    (∀ m, 1 ≤ m → m < k → unionAcceptAt env idx 1 m = false) ∧
    (unionPhaseParams cfg env baseline [(p, orig)] idx).2 =
      (if containsSubL unionMark.data (env (idx + 2 * (k - 1) + 2)).body.data ||
          differ (env (idx + 2 * (k - 1) + 2)).body baseline then
        [{ tech := "union-confirmed", param := p,
           payload := (unionConfirmPayload k).trim,
           evidence := "columns=" ++ toString k, columns := some k }]
      else []) := by
  obtain ⟨h1, h2, h3, h4, h5⟩ := unionColSearch_some_spec env cfg.union_max_columns 1 idx k hk
  refine ⟨unionAcceptHere_iff, h1, h2, h3, h4, ?_⟩
  simp only [unionPhaseParams]
  rw [hk, h5]
  simp only [unionPhaseParams, union_record_guard]
  by_cases hg : (containsSubL unionMark.data (env (idx + 2 * (k - 1) + 2)).body.data ||
      differ (env (idx + 2 * (k - 1) + 2)).body baseline) = true
  · simp only [hg, if_true]
    rfl
  · simp only [Bool.not_eq_true] at hg
    simp only [hg, if_false]
    rfl

theorem C4_union_phase_witness :
    (unionColSearch envU 1 cfgDefault.union_max_columns 0).2 = some 2 ∧
    unionAcceptAt envU 0 1 2 = true ∧ unionAcceptAt envU 0 1 1 = false := by
  have h := C4_union_phase cfgDefault envU "stable page" "id" "1" 0 2 (by decide)
  exact ⟨by decide, h.2.2.2.1, h.2.2.2.2.1 1 le_rfl (by omega)⟩

/-- C4 counterexample: on `envU` the first probe pair has two empty bodies
(no mismatch pattern on either), so the claim's rule accepts column count
1, but the source skips it (both responses falsy) and accepts 2. -/
theorem C4_counterexample :
    (unionColSearch envU 1 6 0).2 = some 2 ∧ claimUnionColCount envU 1 6 0 = some 1 := by
  exact ⟨by decide, by decide⟩

/-! Crawler lemmas: the two extraction passes never touch `visited`; the
anchor pass only enqueues URLs on the seed host. -/

theorem extractAnchors_single_visited (cfg : CrawlCfg) (d : Nat) (st : CrawlState)
    (a : RawAnchor) : (extractAnchors cfg d st [a]).visited = st.visited := by
  simp only [extractAnchors, List.foldl_cons, List.foldl_nil]
  split
  · rfl
  split
  · split
    · rfl
    · rfl
  · rfl

theorem extractAnchors_single_toVisit (cfg : CrawlCfg) (d : Nat) (st : CrawlState)
    (a : RawAnchor) (ud : Url × Nat) (h : ud ∈ (extractAnchors cfg d st [a]).toVisit) :
    ud ∈ st.toVisit ∨ ud.1.netloc = cfg.seed.netloc := by
  simp only [extractAnchors, List.foldl_cons, List.foldl_nil] at h
  split at h
  · exact Or.inl h
  split at h
  · rename_i hnet
    split at h
    · rcases List.mem_append.mp h with h' | h'
      · exact Or.inl h'
      · right
        rcases List.mem_singleton.mp h' with rfl
        exact hnet
    · exact Or.inl h
  · exact Or.inl h

theorem extractAnchors_visited (cfg : CrawlCfg) (d : Nat) :
    ∀ (anchors : List RawAnchor) (st : CrawlState),
      (extractAnchors cfg d st anchors).visited = st.visited := by
  intro anchors
  induction anchors with
  | nil => intro st; rfl
  | cons a rest ih =>
    intro st
    have hstep : extractAnchors cfg d st (a :: rest) =
        extractAnchors cfg d (extractAnchors cfg d st [a]) rest := by
      simp only [extractAnchors, List.foldl_cons, List.foldl_nil]
    rw [hstep, ih, extractAnchors_single_visited]

theorem extractAnchors_toVisit (cfg : CrawlCfg) (d : Nat) :
    ∀ (anchors : List RawAnchor) (st : CrawlState) (ud : Url × Nat),
      ud ∈ (extractAnchors cfg d st anchors).toVisit →
      ud ∈ st.toVisit ∨ ud.1.netloc = cfg.seed.netloc := by
  intro anchors
  induction anchors with
  | nil => intro st ud h; exact Or.inl h
  | cons a rest ih =>
    intro st ud h
    have hstep : extractAnchors cfg d st (a :: rest) =
        extractAnchors cfg d (extractAnchors cfg d st [a]) rest := by
      simp only [extractAnchors, List.foldl_cons, List.foldl_nil]
    rw [hstep] at h
    rcases ih _ ud h with h' | h'
    · exact extractAnchors_single_toVisit cfg d st a ud h'
    · exact Or.inr h'

theorem extractForms_single_visited (cfg : CrawlCfg) (pu : Url) (d : Nat)
    (st : CrawlState) (f : RawForm) :
    (extractForms cfg pu d st [f]).visited = st.visited := by
  simp only [extractForms, List.foldl_cons, List.foldl_nil]
  split
  · split
    · rfl
    · rfl
  · split
    · rfl
    · rfl

theorem extractForms_visited (cfg : CrawlCfg) (pu : Url) (d : Nat) :
    ∀ (forms : List RawForm) (st : CrawlState),
      (extractForms cfg pu d st forms).visited = st.visited := by
  intro forms
  induction forms with
  | nil => intro st; rfl
  | cons f rest ih =>
    intro st
    have hstep : extractForms cfg pu d st (f :: rest) =
        extractForms cfg pu d (extractForms cfg pu d st [f]) rest := by
      simp only [extractForms, List.foldl_cons, List.foldl_nil]
    rw [hstep, ih, extractForms_single_visited]

theorem extract_links_forms_visited (cfg : CrawlCfg) (pu : Url) (d : Nat)
    (st : CrawlState) (pg : Page) :
    (extract_links_forms cfg pu d st pg).visited = st.visited := by
  rw [extract_links_forms, extractForms_visited, extractAnchors_visited]

/-- One crawl-loop iteration keeps every visited entry's depth within
`max_depth` (the dequeue guard drops anything deeper). -/
theorem crawlStep_depth (cfg : CrawlCfg) (st : CrawlState)
    (hv : ∀ ud ∈ st.visited, ud.2 ≤ cfg.maxDepth) :
    ∀ ud ∈ (crawlStep cfg st).visited, ud.2 ≤ cfg.maxDepth := by
  cases hq : st.toVisit with
  | nil => simpa [crawlStep, hq] using hv
  | cons hd rest =>
    obtain ⟨url, depth⟩ := hd
    simp only [crawlStep, hq]
    by_cases h1 : (visitedHas st.visited url || decide (cfg.maxDepth < depth)) = true
    · rw [if_pos h1]
      exact hv
    · rw [if_neg h1]
      have hdep : depth ≤ cfg.maxDepth := by
        simp only [Bool.or_eq_true, decide_eq_true_eq, not_or, not_lt] at h1
        exact h1.2
      have hv2 : ∀ ud ∈ st.visited ++ [(url, depth)], ud.2 ≤ cfg.maxDepth := by
        intro ud hud
        rcases List.mem_append.mp hud with h | h
        · exact hv ud h
        · rcases List.mem_singleton.mp h with rfl
          exact hdep
      by_cases h2 : (cfg.respectRobots && !cfg.canFetch url) = true
      · rw [if_pos h2]
        exact hv
      · rw [if_neg h2]
        cases hpg : cfg.page url with
        | none => simpa using hv2
        | some pg =>
          intro ud hud
          rw [extract_links_forms_visited] at hud
          exact hv2 ud hud

/-- One crawl-loop iteration preserves the seed-host property of both the
visited set and the queue, provided no page carries a form (form actions
are enqueued without the host check the anchor pass makes). -/
theorem crawlStep_host (cfg : CrawlCfg) (st : CrawlState)
    (hforms : ∀ u pg, cfg.page u = some pg → pg.forms = [])
    (hv : ∀ ud ∈ st.visited, ud.1.netloc = cfg.seed.netloc)
    (ht : ∀ ud ∈ st.toVisit, ud.1.netloc = cfg.seed.netloc) :
    (∀ ud ∈ (crawlStep cfg st).visited, ud.1.netloc = cfg.seed.netloc) ∧
    (∀ ud ∈ (crawlStep cfg st).toVisit, ud.1.netloc = cfg.seed.netloc) := by
  cases hq : st.toVisit with
  | nil =>
    constructor
    · simpa [crawlStep, hq] using hv
    · simp only [crawlStep, hq]
      intro ud h
      cases h
  | cons hd rest =>
    obtain ⟨url, depth⟩ := hd
    have hrest : ∀ ud ∈ rest, ud.1.netloc = cfg.seed.netloc :=
      fun ud h => ht ud (hq ▸ List.mem_cons_of_mem _ h)
    have hurl : url.netloc = cfg.seed.netloc :=
      ht (url, depth) (hq ▸ List.mem_cons_self _ _)
    have hv2 : ∀ ud ∈ st.visited ++ [(url, depth)], ud.1.netloc = cfg.seed.netloc := by
      intro ud hud
      rcases List.mem_append.mp hud with h | h
      · exact hv ud h
      · rcases List.mem_singleton.mp h with rfl
        exact hurl
    simp only [crawlStep, hq]
    by_cases h1 : (visitedHas st.visited url || decide (cfg.maxDepth < depth)) = true
    · rw [if_pos h1]
      exact ⟨hv, hrest⟩
    · rw [if_neg h1]
      by_cases h2 : (cfg.respectRobots && !cfg.canFetch url) = true
      · rw [if_pos h2]
        exact ⟨hv, hrest⟩
      · rw [if_neg h2]
        cases hpg : cfg.page url with
        | none => exact ⟨by simpa using hv2, hrest⟩
        | some pg =>
          have hfe : pg.forms = [] := hforms url pg hpg
          have hred : ∀ s, extract_links_forms cfg url depth s pg =
              extractAnchors cfg depth s pg.anchors := by
            intro s
            rw [extract_links_forms, hfe]
            rfl
          constructor
          · intro ud hud
            have hud' : ud ∈ (extract_links_forms cfg url depth
                ⟨st.visited ++ [(url, depth)], rest, st.formTargets⟩ pg).visited := hud
            rw [hred, extractAnchors_visited] at hud'
            exact hv2 ud hud'
          · intro ud hud
            have hud' : ud ∈ (extract_links_forms cfg url depth
                ⟨st.visited ++ [(url, depth)], rest, st.formTargets⟩ pg).toVisit := hud
            rw [hred] at hud'
            rcases extractAnchors_toVisit cfg depth pg.anchors _ ud hud' with h | h
            · exact hrest ud h
            · exact h

theorem crawlRun_depth (cfg : CrawlCfg) :
    ∀ (fuel : Nat) (st : CrawlState), (∀ ud ∈ st.visited, ud.2 ≤ cfg.maxDepth) →
      ∀ ud ∈ (crawlRun cfg fuel st).visited, ud.2 ≤ cfg.maxDepth := by
  intro fuel
  induction fuel with
  | zero => intro st hv; exact hv
  | succ n ih =>
    intro st hv
    cases hq : st.toVisit with
    | nil => simpa [crawlRun, hq] using hv
    | cons hd rest =>
      simp only [crawlRun, hq]
      exact ih (crawlStep cfg st) (crawlStep_depth cfg st hv)

theorem crawlRun_host (cfg : CrawlCfg)
    (hforms : ∀ u pg, cfg.page u = some pg → pg.forms = []) :
    ∀ (fuel : Nat) (st : CrawlState),
      (∀ ud ∈ st.visited, ud.1.netloc = cfg.seed.netloc) →
      (∀ ud ∈ st.toVisit, ud.1.netloc = cfg.seed.netloc) →
      ∀ ud ∈ (crawlRun cfg fuel st).visited, ud.1.netloc = cfg.seed.netloc := by
  intro fuel
  induction fuel with
  | zero => intro st hv ht; exact hv
  | succ n ih =>
    intro st hv ht
    cases hq : st.toVisit with
    | nil => simpa [crawlRun, hq] using hv
    | cons hd rest =>
      simp only [crawlRun, hq]
      obtain ⟨h1, h2⟩ := crawlStep_host cfg st hforms hv ht
      exact ih (crawlStep cfg st) h1 h2

/-- C1 (amended): every crawl visits only URLs dequeued at depth
`≤ max_depth`; and as long as no fetched page carries a form, every visited
URL's host equals the seed's.  The host claim does not hold of form
actions: the form pass enqueues the action URL with no host check (see the
counterexample). -/
theorem C1_crawl_containment (cfg : CrawlCfg) (fuel : Nat) :
    (∀ ud ∈ (crawl cfg fuel).visited, ud.2 ≤ cfg.maxDepth) ∧
    ((∀ u pg, cfg.page u = some pg → pg.forms = []) →
      ∀ ud ∈ (crawl cfg fuel).visited, ud.1.netloc = cfg.seed.netloc) := by
  constructor
  · refine crawlRun_depth cfg fuel (initCrawlState cfg.seed) ?_
    intro ud h
    cases h
  · intro hforms
    refine crawlRun_host cfg hforms fuel (initCrawlState cfg.seed) ?_ ?_
    · intro ud h
      cases h
    · intro ud h
      rcases List.mem_singleton.mp h with rfl
      rfl

/-- C1 counterexample: a seed page holding one cross-host form action makes
the crawler visit a URL on another host — form actions are enqueued without
the netloc check the anchor pass makes. -/
theorem C1_counterexample :
    ((crawl cfg1 2).visited.map fun ud => ud.1.netloc) = ["h", "evil"] ∧
    urlEvil.netloc ≠ cfg1.seed.netloc := by
  exact ⟨by decide, by decide⟩

end WebSql
